import Mathlib

/-!
Verification of the cross-structure pocket mapping pipeline of
`out_of_sample/2_analysis/3_find_pocket_residues.py`.

The Python program is shallowly embedded: structures, residues, chains and
atoms become Lean structures; Biopython library entry points (structure
parsing, `PPBuilder` peptide construction, `is_aa`, `NeighborSearch`,
`PairwiseAligner`) are treated as black boxes, modelled respectively by
parse results stored in the directory-entry record, a per-residue
`inPeptide` flag, a per-residue `isAA` flag, an exact distance predicate,
and an `AlignLib` record of (coordinates, score) functions.  All functions
of the script itself (`_sequence_and_residues`,
`_build_ref_to_model_index_map`, `_compute_reference_pocket`,
`_map_pocket_residues_to_model`, `process_finished_outputs`) are translated
line by line into executable Lean definitions below.
-/

namespace BenchAF3

/-- 3D coordinate of an atom; the script never mutates coordinates, and the
distance test is algebraic, so exact rationals stand in for the floats. -/
structure Atom3 where
  x : ℚ
  y : ℚ
  z : ℚ
deriving DecidableEq

/-- A residue of the Biopython hierarchy, with the fields the script reads:
`get_parent().id` (chainId), `get_resname()` (resname), `get_id()[1]`
(seqnum), `get_id()[0]` (hetflag), the atoms, plus two flags modelling the
black-box library predicates: `inPeptide` (the residue is part of a
`PPBuilder` peptide of its chain) and `isAA` (Biopython `is_aa`). -/
structure Residue where
  chainId : String
  resname : String
  seqnum : Int
  hetflag : Char
  inPeptide : Bool
  isAA : Bool
  atoms : List Atom3
deriving DecidableEq

/-- A chain: identifier plus its residues in structural order. -/
structure Chain where
  id : String
  residues : List Residue
deriving DecidableEq

/-- The first model of a parsed structure: an ordered list of chains. -/
structure Model where
  chains : List Chain
deriving DecidableEq

/-- All residues of the model, in chain order (`model.get_residues()`). -/
def modelResidues (m : Model) : List Residue :=
  (m.chains.map Chain.residues).flatten

/-- The black-box alignment library (`Bio.Align.PairwiseAligner` with
BLOSUM62): `coords` returns the best alignment's coordinate columns
(`alignment.coordinates`, one `(ref, model)` pair per column), `score`
returns `aligner.score`. -/
structure AlignLib where
  coords : String → String → List (Nat × Nat)
  score : String → String → ℚ

/-! ### Python string helpers (`.strip()`, `.upper()`, `[:3]`, `.split`) -/

/-- Python `str.strip()` on the character list of a string. -/
def pyStrip (s : String) : String :=
  String.mk (((s.data.dropWhile Char.isWhitespace).reverse.dropWhile
    Char.isWhitespace).reverse)

/-- Python `str.upper()` (the residue and ligand names are ASCII). -/
def pyUpper (s : String) : String :=
  String.mk (s.data.map Char.toUpper)

/-- `res.get_resname().strip().upper()` of `_sequence_and_residues`. -/
def normalizeResname (s : String) : String := pyUpper (pyStrip s)

/-- `name.split('_', 1)` unpacked into two parts; `none` models the
`ValueError` raised when the name holds no underscore. -/
def splitFirstUnderscore : List Char → Option (List Char × List Char)
  | [] => none
  | c :: cs =>
    if c = '_' then some ([], cs)
    else match splitFirstUnderscore cs with
      | some p => some (c :: p.1, p.2)
      | none => none

/-- `pdbid, ligandid_raw = name.split('_', 1)` of `process_finished_outputs`. -/
def splitUnderscore1 (s : String) : Option (String × String) :=
  (splitFirstUnderscore s.data).map (fun p => (String.mk p.1, String.mk p.2))

/-- `ligandid_raw[:3] if len(ligandid_raw) == 5 else ligandid_raw`, then
`.upper()`. -/
def normalizeLigand (s : String) : String :=
  pyUpper (if s.length = 5 then String.mk (s.data.take 3) else s)

/-! ### Sequence Extractor (`_sequence_and_residues`) -/

/-- The `THREE_TO_ONE` table of `_sequence_and_residues`, in source order:
twenty standard amino acids followed by the five additional codes of the
source (`ASX`, `GLX`, `XLE`, `SEC`, `PYL`). -/
def THREE_TO_ONE : List (String × Char) :=
  [("ALA", 'A'), ("ARG", 'R'), ("ASN", 'N'), ("ASP", 'D'),
   ("CYS", 'C'), ("GLN", 'Q'), ("GLU", 'E'), ("GLY", 'G'),
   ("HIS", 'H'), ("ILE", 'I'), ("LEU", 'L'), ("LYS", 'K'),
   ("MET", 'M'), ("PHE", 'F'), ("PRO", 'P'), ("SER", 'S'),
   ("THR", 'T'), ("TRP", 'W'), ("TYR", 'Y'), ("VAL", 'V'),
   ("ASX", 'B'), ("GLX", 'Z'), ("XLE", 'J'), ("SEC", 'U'), ("PYL", 'O')]

/-- Table lookup: `THREE_TO_ONE[resname]` guarded by `resname in THREE_TO_ONE`. -/
def lookupAA (rn : String) : Option Char := List.lookup rn THREE_TO_ONE

/-- The one-letter symbol a residue name is translated to: the table entry
when present, the fallback symbol `X` otherwise. -/
def translateResname (rn : String) : Char := (lookupAA rn).getD 'X'

/-- The loop body of `_sequence_and_residues`: builds (sequence characters,
valid residues, number of non-standard-residue warnings) over a residue
list, in order. -/
def seqAndResAux : List Residue → List Char × List Residue × Nat
  | [] => ([], [], 0)
  | r :: rest =>
    let t := seqAndResAux rest
    match lookupAA (normalizeResname r.resname) with
    | some c => (c :: t.1, r :: t.2.1, t.2.2)
    | none => ('X' :: t.1, r :: t.2.1, t.2.2 + 1)

/-- `_sequence_and_residues` restricted to a residue list: returns the
sequence string, the parallel residue list, and the warning count. -/
def seqAndRes (rs : List Residue) : String × List Residue × Nat :=
  ((seqAndResAux rs).1.asString, (seqAndResAux rs).2.1, (seqAndResAux rs).2.2)

/-- `_protein_residues(model, chain_id)`: the `PPBuilder` residues of the
first chain with the given id, `[]` when the chain is absent. -/
def proteinResidues (m : Model) (cid : String) : List Residue :=
  match m.chains.find? (fun c => c.id == cid) with
  | some c => c.residues.filter Residue.inPeptide
  | none => []

/-- `_sequence_and_residues(model, chain_id)`. -/
def sequenceAndResidues (m : Model) (cid : String) : String × List Residue × Nat :=
  seqAndRes (proteinResidues m cid)

/-! #### Lemmas about the Sequence Extractor -/

theorem seqAndResAux_res_eq (rs : List Residue) : (seqAndResAux rs).2.1 = rs := by
  induction rs with
  | nil => rfl
  | cons r rest ih =>
    simp only [seqAndResAux]
    cases h : lookupAA (normalizeResname r.resname) <;> simp [h, ih]

theorem seqAndResAux_len (rs : List Residue) : (seqAndResAux rs).1.length = rs.length := by
  induction rs with
  | nil => rfl
  | cons r rest ih =>
    simp only [seqAndResAux]
    cases h : lookupAA (normalizeResname r.resname) <;> simp [h, ih]

theorem lookup_some_mem {α β : Type} [DecidableEq α] :
    ∀ (l : List (α × β)) (k : α) (v : β), List.lookup k l = some v → (k, v) ∈ l
  | [], _, _, h => by simp [List.lookup] at h
  | (a, b) :: rest, k, v, h => by
    rw [List.lookup] at h
    by_cases hk : k = a
    · subst hk
      simp only [beq_self_eq_true, if_pos] at h
      cases h
      exact List.mem_cons_self _ _
    · simp only [beq_eq_false_iff_ne.mpr hk, if_neg, Bool.false_eq_true,
        not_false_eq_true] at h
      exact List.mem_cons_of_mem _ (lookup_some_mem rest k v h)

/-- Every value of the translation table differs from the fallback symbol. -/
theorem table_values_ne_X : ∀ p ∈ THREE_TO_ONE, p.2 ≠ 'X' := by decide

theorem seqAndResAux_countX (rs : List Residue) :
    (seqAndResAux rs).1.count 'X'
      = rs.countP (fun r => (lookupAA (normalizeResname r.resname)).isNone) := by
  induction rs with
  | nil => rfl
  | cons r rest ih =>
    simp only [seqAndResAux]
    cases h : lookupAA (normalizeResname r.resname) with
    | none => simp [h, List.count_cons, List.countP_cons, ih]
    | some c =>
      have hc : c ≠ 'X' := by
        have := lookup_some_mem THREE_TO_ONE (normalizeResname r.resname) c h
        exact table_values_ne_X _ this
      simp [h, List.count_cons, List.countP_cons, ih, hc]

theorem seqAndResAux_warn (rs : List Residue) :
    (seqAndResAux rs).2.2
      = rs.countP (fun r => (lookupAA (normalizeResname r.resname)).isNone) := by
  induction rs with
  | nil => rfl
  | cons r rest ih =>
    simp only [seqAndResAux]
    cases h : lookupAA (normalizeResname r.resname) <;>
      simp [h, List.countP_cons, ih]

theorem seqAndResAux_get? (rs : List Residue) (i : Nat) :
    (seqAndResAux rs).1.get? i
      = (rs.get? i).map (fun r => translateResname (normalizeResname r.resname)) := by
  induction rs generalizing i with
  | nil => simp [seqAndResAux]
  | cons r rest ih =>
    simp only [seqAndResAux, translateResname]
    cases h : lookupAA (normalizeResname r.resname) with
    | none =>
      cases i with
      | zero => simp [h]
      | succ j => simpa [translateResname] using ih j
    | some c =>
      cases i with
      | zero => simp [h]
      | succ j => simpa [translateResname] using ih j

/-! ### Index Mapper (`_build_ref_to_model_index_map`) -/

/-- The pairs contributed by one pair of adjacent coordinate columns: when
both sides advance (`(ra1 - ra0) > 0 and (rb1 - rb0) > 0`), positions are
mapped pairwise up to `min` of the two block lengths; otherwise (a gap on
either side) nothing is mapped. -/
def blockPairs (p q : Nat × Nat) : List (Nat × Nat) :=
  if p.1 < q.1 ∧ p.2 < q.2 then
    (List.range (min (q.1 - p.1) (q.2 - p.2))).map (fun i => (p.1 + i, p.2 + i))
  else []

/-- The loop of `_build_ref_to_model_index_map` over
`alignment.coordinates`: the produced `(ref index, model index)` pairs, in
insertion order (the Python dict is recovered by `pyDictGet` below). -/
def buildMap : List (Nat × Nat) → List (Nat × Nat)
  | p :: q :: rest => blockPairs p q ++ buildMap (q :: rest)
  | _ => []

/-- A Python dict built by inserting the pairs of `l` in order, then read at
key `k`: the last write wins. -/
def pyDictGet (l : List (Nat × Nat)) (k : Nat) : Option Nat :=
  List.lookup k l.reverse

theorem mem_blockPairs {p q x} : x ∈ blockPairs p q ↔
    p.1 < q.1 ∧ p.2 < q.2 ∧
      ∃ i, i < min (q.1 - p.1) (q.2 - p.2) ∧ x = (p.1 + i, p.2 + i) := by
  unfold blockPairs
  by_cases h : p.1 < q.1 ∧ p.2 < q.2
  · simp only [if_pos h, List.mem_map, List.mem_range]
    constructor
    · rintro ⟨i, hi, rfl⟩
      exact ⟨h.1, h.2, i, hi, rfl⟩
    · rintro ⟨_, _, i, hi, rfl⟩
      exact ⟨i, hi, rfl⟩
  · simp only [if_neg h, List.not_mem_nil, false_iff]
    rintro ⟨h1, h2, _⟩
    exact h ⟨h1, h2⟩

/-- `x` is produced by the Index Mapper iff it comes out of some adjacent
pair of coordinate columns. -/
theorem mem_buildMap {x : Nat × Nat} : ∀ {coords : List (Nat × Nat)},
    x ∈ buildMap coords ↔
      ∃ l₁ p q l₂, coords = l₁ ++ p :: q :: l₂ ∧ x ∈ blockPairs p q
  | [] => by
    simp only [buildMap, List.not_mem_nil, false_iff]
    rintro ⟨l₁, p, q, l₂, h, -⟩
    have := congrArg List.length h
    simp at this
    omega
  | [p0] => by
    constructor
    · intro h
      simp [buildMap] at h
    · rintro ⟨l₁, p, q, l₂, h, -⟩
      have := congrArg List.length h
      simp at this
      omega
  | p0 :: q0 :: rest => by
    rw [buildMap, List.mem_append]
    constructor
    · rintro (h | h)
      · exact ⟨[], p0, q0, rest, rfl, h⟩
      · obtain ⟨l₁, p, q, l₂, heq, hmem⟩ := mem_buildMap.mp h
        exact ⟨p0 :: l₁, p, q, l₂, by rw [List.cons_append, heq], hmem⟩
    · rintro ⟨l₁, p, q, l₂, heq, hmem⟩
      rcases l₁ with _ | ⟨a, l₁⟩
      · simp only [List.nil_append, List.cons.injEq] at heq
        obtain ⟨rfl, heq⟩ := heq
        obtain ⟨rfl, rfl⟩ := List.cons.injEq .. ▸ heq
        exact Or.inl hmem
      · simp only [List.cons_append, List.cons.injEq] at heq
        obtain ⟨rfl, heq⟩ := heq
        exact Or.inr (mem_buildMap.mpr ⟨l₁, p, q, l₂, heq, hmem⟩)

/-- Coordinate monotonicity: in a valid alignment, the coordinate columns
are componentwise nondecreasing. -/
abbrev MonoCoords (coords : List (Nat × Nat)) : Prop :=
  List.Chain' (fun p q => p.1 ≤ q.1 ∧ p.2 ≤ q.2) coords

theorem mono_le_getLast : ∀ (l : List (Nat × Nat)) (z : Nat × Nat),
    MonoCoords l → l.getLast? = some z → ∀ x ∈ l, x.1 ≤ z.1 ∧ x.2 ≤ z.2
  | [], _, _, hz, _, hx => by simp at hz
  | [a], z, _, hz, x, hx => by
    simp only [List.getLast?_singleton, Option.some.injEq] at hz
    simp only [List.mem_singleton] at hx
    subst hz; subst hx; exact ⟨le_refl _, le_refl _⟩
  | a :: b :: t, z, hmono, hz, x, hx => by
    rw [List.getLast?_cons_cons] at hz
    obtain ⟨hab, hrest⟩ := List.chain'_cons.mp hmono
    rcases List.mem_cons.mp hx with rfl | hx
    · have hb := mono_le_getLast (b :: t) z hrest hz b (List.mem_cons_self b t)
      exact ⟨le_trans hab.1 hb.1, le_trans hab.2 hb.2⟩
    · exact mono_le_getLast (b :: t) z hrest hz x hx

/-- C5: for every alignment coordinate list that is componentwise
nondecreasing and ends at the pair of sequence lengths (as every alignment
produced by the aligner does), the Index Mapper (a) only emits pairs coming
from an adjacent column pair where both sides advance — so gap columns are
never mapped — and each such pair is position-for-position within the block
at an offset below `min(ref_block_len, model_block_len)`; (b) emits the full
pairwise prefix of size `min` for every both-advancing block (unequal blocks
are truncated, never rejected); and (c) every mapped reference index is at
most `len(ref_seq) - 1` and every mapped model index is at most
`len(model_seq) - 1`. -/
theorem c5_index_mapper (coords : List (Nat × Nat)) (rlen mlen : Nat)
    (hmono : MonoCoords coords) (hlast : coords.getLast? = some (rlen, mlen)) :
    (∀ x ∈ buildMap coords,
        ∃ l₁ p q l₂, coords = l₁ ++ p :: q :: l₂ ∧ p.1 < q.1 ∧ p.2 < q.2 ∧
          ∃ i, i < min (q.1 - p.1) (q.2 - p.2) ∧ x = (p.1 + i, p.2 + i))
    ∧ (∀ l₁ p q l₂, coords = l₁ ++ p :: q :: l₂ → p.1 < q.1 → p.2 < q.2 →
        ∀ i, i < min (q.1 - p.1) (q.2 - p.2) → (p.1 + i, p.2 + i) ∈ buildMap coords)
    ∧ (∀ x ∈ buildMap coords, x.1 < rlen ∧ x.2 < mlen) := by
  refine ⟨?_, ?_, ?_⟩
  · intro x hx
    obtain ⟨l₁, p, q, l₂, heq, hmem⟩ := mem_buildMap.mp hx
    obtain ⟨h1, h2, i, hi, rfl⟩ := mem_blockPairs.mp hmem
    exact ⟨l₁, p, q, l₂, heq, h1, h2, i, hi, rfl⟩
  · intro l₁ p q l₂ heq h1 h2 i hi
    exact mem_buildMap.mpr ⟨l₁, p, q, l₂, heq,
      mem_blockPairs.mpr ⟨h1, h2, i, hi, rfl⟩⟩
  · intro x hx
    obtain ⟨l₁, p, q, l₂, heq, hmem⟩ := mem_buildMap.mp hx
    obtain ⟨h1, h2, i, hi, rfl⟩ := mem_blockPairs.mp hmem
    have hq : q ∈ coords := by
      rw [heq]
      exact List.mem_append_right _ (List.mem_cons_of_mem _ (List.mem_cons_self _ _))
    have hqz := mono_le_getLast coords (rlen, mlen) hmono hlast q hq
    have hir : i < q.1 - p.1 := lt_of_lt_of_le hi (min_le_left _ _)
    have him : i < q.2 - p.2 := lt_of_lt_of_le hi (min_le_right _ _)
    constructor
    · have : p.1 + i < q.1 := by omega
      exact lt_of_lt_of_le this hqz.1
    · have : p.2 + i < q.2 := by omega
      exact lt_of_lt_of_le this hqz.2

/-- Witness for C5 at the concrete coordinate list
`[(0,0), (2,1), (2,2), (4,4)]` (a 2-versus-1 truncated block, a model-side
gap, then an equal block) with both сequence lengths 4. -/
theorem c5_index_mapper_witness :
    MonoCoords [(0, 0), (2, 1), (2, 2), (4, 4)]
    ∧ ([(0, 0), (2, 1), (2, 2), (4, 4)] : List (Nat × Nat)).getLast?
        = some (4, 4)
    ∧ (∀ x ∈ buildMap [(0, 0), (2, 1), (2, 2), (4, 4)], x.1 < 4 ∧ x.2 < 4) :=
  ⟨by simp [List.chain'_cons], rfl,
    (c5_index_mapper [(0, 0), (2, 1), (2, 2), (4, 4)] 4 4
      (by simp [List.chain'_cons]) rfl).2.2⟩

/-- C9: the Sequence Extractor keeps the sequence string and the residue
list parallel (`len(sequence) == len(residue_list)`, and in fact the valid
residue list is the input list itself); position `i` of the sequence is the
translation of residue `i`; and every residue whose normalized name is
outside the table contributes exactly one `X` and exactly one diagnostic
warning, while residues in the table never contribute an `X`. -/
theorem c9_sequence_extractor (rs : List Residue) :
    (seqAndRes rs).1.length = (seqAndRes rs).2.1.length
    ∧ (seqAndRes rs).2.1 = rs
    ∧ (seqAndRes rs).1.toList.count 'X'
        = rs.countP (fun r => (lookupAA (normalizeResname r.resname)).isNone)
    ∧ (seqAndRes rs).2.2
        = rs.countP (fun r => (lookupAA (normalizeResname r.resname)).isNone)
    ∧ ∀ i, (seqAndRes rs).1.toList.get? i
        = (rs.get? i).map (fun r => translateResname (normalizeResname r.resname)) := by
  refine ⟨?_, ?_, ?_, ?_, ?_⟩
  · simp [seqAndRes, seqAndResAux_len, seqAndResAux_res_eq]
  · simp [seqAndRes, seqAndResAux_res_eq]
  · simpa [seqAndRes] using seqAndResAux_countX rs
  · simpa [seqAndRes] using seqAndResAux_warn rs
  · intro i
    simpa [seqAndRes] using seqAndResAux_get? rs i

/-- C4, counterexample: the translation table has 25 entries (the 20
standard codes together with `ASX`, `GLX`, `XLE`, `SEC` and `PYL`), not the
24 the claim states. -/
theorem c4_counterexample : THREE_TO_ONE.length = 25 ∧ ¬ THREE_TO_ONE.length = 24 := by
  decide

/-- C4, amended: the 3-letter-to-1-letter table contains exactly the 20
standard amino-acid codes plus 5 additional codes (the ambiguity codes
`ASX`, `GLX`, `XLE` and the rare amino acids `SEC`, `PYL`), 25 entries in
total, and every residue name outside the table is translated to the
fallback symbol `X`. -/
theorem c4_amended :
    THREE_TO_ONE.map Prod.fst
      = ["ALA", "ARG", "ASN", "ASP", "CYS", "GLN", "GLU", "GLY",
         "HIS", "ILE", "LEU", "LYS", "MET", "PHE", "PRO", "SER",
         "THR", "TRP", "TYR", "VAL", "ASX", "GLX", "XLE", "SEC", "PYL"]
    ∧ THREE_TO_ONE.length = 25
    ∧ (∀ rn, lookupAA rn = none → translateResname rn = 'X') := by
  refine ⟨by decide, by decide, ?_⟩
  intro rn h
  simp [translateResname, h]

/-- Witness for C4's amended claim at the non-table name `MSE`
(selenomethionine): it is translated to `X`. -/
theorem c4_amended_witness : lookupAA "MSE" = none ∧ translateResname "MSE" = 'X' :=
  ⟨by decide, c4_amended.2.2 "MSE" (by decide)⟩

/-! ### Pocket Locator (`_compute_reference_pocket`) -/

/-- Squared Euclidean distance between two atoms; `NeighborSearch.search`
keeps atoms whose distance from the center is at most the radius, which for
a nonnegative radius is `distSq ≤ radius * radius`. -/
def distSq (a b : Atom3) : ℚ :=
  (a.x - b.x) * (a.x - b.x) + (a.y - b.y) * (a.y - b.y) + (a.z - b.z) * (a.z - b.z)

/-- `ns.search(latom.coord, cutoff)` followed by `neighbor.get_parent()`:
the parent residue of every model atom within `cutoff` of the center, one
occurrence per qualifying atom. -/
def nsSearch (m : Model) (center : Atom3) (cutoff : ℚ) : List Residue :=
  (modelResidues m).flatMap (fun r =>
    (r.atoms.filter (fun a => decide (distSq a center ≤ cutoff * cutoff))).map
      (fun _ => r))

/-- The inner loop body: `if res.get_id()[0] == " " and is_aa(res):
pocket.add(res)`. -/
def pocketStepInner (acc : Finset Residue) (r : Residue) : Finset Residue :=
  if r.hetflag = ' ' ∧ r.isAA = true then insert r acc else acc

/-- The two nested loops of `_compute_reference_pocket` over an explicit
list of ligand atoms, including the early empty return
(`if not ligand_atoms: return set(), ...`). -/
def pocketFromAtoms (m : Model) (latoms : List Atom3) (cutoff : ℚ) : Finset Residue :=
  if latoms.isEmpty then ∅
  else latoms.foldl (fun acc la => (nsSearch m la cutoff).foldl pocketStepInner acc) ∅

/-- `ligand_atoms`: all atoms of residues whose name matches the ligand
residue name. -/
def ligandAtoms (m : Model) (lig : String) : List Atom3 :=
  ((modelResidues m).filter (fun r => r.resname == lig)).flatMap Residue.atoms

/-- `_compute_reference_pocket` restricted to its pocket value. -/
def computeReferencePocket (m : Model) (lig : String) (cutoff : ℚ) : Finset Residue :=
  pocketFromAtoms m (ligandAtoms m lig) cutoff

theorem mem_pocketStepInner {acc : Finset Residue} {r x : Residue} :
    x ∈ pocketStepInner acc r ↔ x ∈ acc ∨ (x = r ∧ r.hetflag = ' ' ∧ r.isAA = true) := by
  unfold pocketStepInner
  by_cases h : r.hetflag = ' ' ∧ r.isAA = true
  · simp only [if_pos h, Finset.mem_insert]
    constructor
    · rintro (rfl | hx)
      · exact Or.inr ⟨rfl, h⟩
      · exact Or.inl hx
    · rintro (hx | ⟨rfl, -⟩)
      · exact Or.inr hx
      · exact Or.inl rfl
  · simp only [if_neg h]
    constructor
    · exact Or.inl
    · rintro (hx | ⟨rfl, h2⟩)
      · exact hx
      · exact absurd h2 h

theorem mem_inner_fold :
    ∀ (ns : List Residue) (acc : Finset Residue) (x : Residue),
      x ∈ ns.foldl pocketStepInner acc ↔
        x ∈ acc ∨ (x ∈ ns ∧ x.hetflag = ' ' ∧ x.isAA = true)
  | [], acc, x => by simp
  | r :: rest, acc, x => by
    rw [List.foldl_cons, mem_inner_fold rest]
    rw [mem_pocketStepInner]
    constructor
    · rintro ((hx | ⟨rfl, h⟩) | ⟨hmem, h⟩)
      · exact Or.inl hx
      · exact Or.inr ⟨List.mem_cons_self _ _, h⟩
      · exact Or.inr ⟨List.mem_cons_of_mem _ hmem, h⟩
    · rintro (hx | ⟨hmem, h⟩)
      · exact Or.inl (Or.inl hx)
      · rcases List.mem_cons.mp hmem with rfl | hmem
        · exact Or.inl (Or.inr ⟨rfl, h⟩)
        · exact Or.inr ⟨hmem, h⟩

theorem mem_outer_fold {m : Model} {cutoff : ℚ} :
    ∀ (latoms : List Atom3) (acc : Finset Residue) (x : Residue),
      x ∈ latoms.foldl (fun acc la => (nsSearch m la cutoff).foldl pocketStepInner acc) acc ↔
        x ∈ acc ∨ ∃ la ∈ latoms, x ∈ nsSearch m la cutoff ∧ x.hetflag = ' ' ∧ x.isAA = true
  | [], acc, x => by simp
  | la :: rest, acc, x => by
    rw [List.foldl_cons, mem_outer_fold rest]
    rw [mem_inner_fold]
    constructor
    · rintro ((hx | ⟨hns, h⟩) | ⟨b, hb, hns, h⟩)
      · exact Or.inl hx
      · exact Or.inr ⟨la, List.mem_cons_self _ _, hns, h⟩
      · exact Or.inr ⟨b, List.mem_cons_of_mem _ hb, hns, h⟩
    · rintro (hx | ⟨b, hb, hns, h⟩)
      · exact Or.inl (Or.inl hx)
      · rcases List.mem_cons.mp hb with rfl | hb
        · exact Or.inl (Or.inr ⟨hns, h⟩)
        · exact Or.inr ⟨b, hb, hns, h⟩

/-- Membership characterization of the Pocket Locator result. -/
theorem mem_pocketFromAtoms {m : Model} {latoms : List Atom3} {cutoff : ℚ} {x : Residue} :
    x ∈ pocketFromAtoms m latoms cutoff ↔
      (¬ latoms.isEmpty = true) ∧ x.hetflag = ' ' ∧ x.isAA = true ∧
        ∃ la ∈ latoms, x ∈ nsSearch m la cutoff := by
  unfold pocketFromAtoms
  by_cases h : latoms.isEmpty
  · simp [h]
  · rw [if_neg h, mem_outer_fold]
    simp only [Finset.not_mem_empty, false_or]
    constructor
    · rintro ⟨la, hla, hns, hh, ha⟩
      exact ⟨h, hh, ha, la, hla, hns⟩
    · rintro ⟨-, hh, ha, la, hla, hns⟩
      exact ⟨la, hla, hns, hh, ha⟩

theorem mem_nsSearch {m : Model} {center : Atom3} {cutoff : ℚ} {x : Residue} :
    x ∈ nsSearch m center cutoff ↔
      x ∈ modelResidues m ∧ ∃ a ∈ x.atoms, distSq a center ≤ cutoff * cutoff := by
  unfold nsSearch
  rw [List.mem_flatMap]
  constructor
  · rintro ⟨r, hr, hx⟩
    rcases List.mem_map.mp hx with ⟨a, ha, rfl⟩
    rcases List.mem_filter.mp ha with ⟨ha, hd⟩
    exact ⟨hr, a, ha, of_decide_eq_true hd⟩
  · rintro ⟨hr, a, ha, hd⟩
    exact ⟨x, hr, List.mem_map.mpr
      ⟨a, List.mem_filter.mpr ⟨ha, decide_eq_true hd⟩, rfl⟩⟩

/-- C7: with the reference structure and ligand name fixed, the Pocket
Locator is monotone in the cutoff (`c1 < c2`, both meaningful radii, gives
`Pocket(c1) ⊆ Pocket(c2)`); it returns a set, whose backing list carries no
duplicate residues; and its value is unchanged under any reordering of the
enumeration of the ligand atoms. -/
theorem c7_pocket_locator (m : Model) (lig : String) (c1 c2 : ℚ)
    (latoms1 latoms2 : List Atom3)
    (h0 : 0 ≤ c1) (h12 : c1 < c2) (hperm : latoms1.Perm latoms2) :
    computeReferencePocket m lig c1 ⊆ computeReferencePocket m lig c2
    ∧ (computeReferencePocket m lig c1).toList.Nodup
    ∧ pocketFromAtoms m latoms1 c1 = pocketFromAtoms m latoms2 c1 := by
  refine ⟨?_, Finset.nodup_toList _, ?_⟩
  · intro x hx
    rw [computeReferencePocket, mem_pocketFromAtoms] at hx ⊢
    obtain ⟨hne, hh, ha, la, hla, hns⟩ := hx
    refine ⟨hne, hh, ha, la, hla, ?_⟩
    rw [mem_nsSearch] at hns ⊢
    obtain ⟨hr, a, haa, hd⟩ := hns
    refine ⟨hr, a, haa, le_trans hd ?_⟩
    have h02 : 0 ≤ c2 := le_trans h0 (le_of_lt h12)
    exact mul_le_mul (le_of_lt h12) (le_of_lt h12) h0 h02
  · apply Finset.ext
    intro x
    rw [mem_pocketFromAtoms, mem_pocketFromAtoms]
    have hlen := hperm.length_eq
    have hemp : latoms1.isEmpty = latoms2.isEmpty := by
      rcases latoms1 with _ | ⟨a, t⟩ <;> rcases latoms2 with _ | ⟨b, u⟩ <;> simp_all
    constructor
    · rintro ⟨hne, hh, ha, la, hla, hns⟩
      exact ⟨by rw [← hemp]; exact hne, hh, ha, la, hperm.mem_iff.mp hla, hns⟩
    · rintro ⟨hne, hh, ha, la, hla, hns⟩
      exact ⟨by rw [hemp]; exact hne, hh, ha, la, hperm.mem_iff.mpr hla, hns⟩

/-- A reference complex for the C7 witness: one hetero ligand residue
`LIG` with two atoms, and two amino-acid residues, one within distance 1 of
a ligand atom, the other only within distance 2. -/
def c7ExModel : Model :=
  ⟨[⟨"A", [⟨"A", "LIG", 1, 'H', false, false, [⟨0, 0, 0⟩, ⟨10, 0, 0⟩]⟩,
           ⟨"A", "ALA", 2, ' ', true, true, [⟨1, 0, 0⟩]⟩,
           ⟨"A", "GLY", 3, ' ', true, true, [⟨0, 2, 0⟩]⟩]⟩]⟩

/-- Witness for C7 on `c7ExModel` with cutoffs 1 < 2 and the two ligand
atoms enumerated in both orders. -/
theorem c7_pocket_locator_witness :
    (0 : ℚ) ≤ 1 ∧ (1 : ℚ) < 2
    ∧ ([(⟨0, 0, 0⟩ : Atom3), ⟨10, 0, 0⟩].Perm [⟨10, 0, 0⟩, ⟨0, 0, 0⟩])
    ∧ (computeReferencePocket c7ExModel "LIG" 1 ⊆ computeReferencePocket c7ExModel "LIG" 2
        ∧ (computeReferencePocket c7ExModel "LIG" 1).toList.Nodup
        ∧ pocketFromAtoms c7ExModel [⟨0, 0, 0⟩, ⟨10, 0, 0⟩] 1
            = pocketFromAtoms c7ExModel [⟨10, 0, 0⟩, ⟨0, 0, 0⟩] 1) :=
  ⟨by norm_num, by norm_num, List.Perm.swap _ _ _,
    c7_pocket_locator c7ExModel "LIG" 1 2 [⟨0, 0, 0⟩, ⟨10, 0, 0⟩]
      [⟨10, 0, 0⟩, ⟨0, 0, 0⟩] (by norm_num) (by norm_num) (List.Perm.swap _ _ _)⟩

/-! ### Chain Aligner fallback (`_map_pocket_residues_to_model`, best-match
chain search) -/

/-- The running state of the best-matching-chain search: `best_chain`,
`best_score` (`none` plays the role of `-inf`), and the `model_seq`,
`model_res_seq` pair the loop overwrites on improvement. -/
structure FallbackState where
  bestChain : Option String
  bestScore : Option ℚ
  seq : String
  res : List Residue
deriving DecidableEq

/-- `score > best_score` with `best_score` initialized to `-float('inf')`. -/
def gtOpt (s : ℚ) : Option ℚ → Bool
  | none => true
  | some b => decide (b < s)

/-- One iteration of `for test_chain in model_model`: skip chains whose
extracted sequence is empty, otherwise keep the strictly better score. -/
def fallbackStep (lib : AlignLib) (refSeq : String) (m : Model)
    (st : FallbackState) (c : Chain) : FallbackState :=
  let t := sequenceAndResidues m c.id
  if t.1 = "" then st
  else if gtOpt (lib.score refSeq t.1) st.bestScore then
    ⟨some c.id, some (lib.score refSeq t.1), t.1, t.2.1⟩
  else st

/-- The best-matching-chain loop over a list of chains. -/
def fallbackRun (lib : AlignLib) (refSeq : String) (m : Model) :
    List Chain → FallbackState → FallbackState
  | [], st => st
  | c :: cs, st => fallbackRun lib refSeq m cs (fallbackStep lib refSeq m st c)

/-- The best-matching-chain search of `_map_pocket_residues_to_model`. -/
def bestMatchingChain (lib : AlignLib) (refSeq : String) (m : Model) : FallbackState :=
  fallbackRun lib refSeq m m.chains ⟨none, none, "", []⟩

/-- The candidate chains of the fallback search: those whose by-identifier
extracted sequence is nonempty. -/
def chainCandidates (m : Model) : List Chain :=
  m.chains.filter (fun c => !((sequenceAndResidues m c.id).1 == ""))

/-- The state the loop stores when candidate `c` wins. -/
def candState (lib : AlignLib) (refSeq : String) (m : Model) (c : Chain) : FallbackState :=
  ⟨some c.id, some (lib.score refSeq (sequenceAndResidues m c.id).1),
   (sequenceAndResidues m c.id).1, (sequenceAndResidues m c.id).2.1⟩

/-- The score a candidate chain receives. -/
def chainScore (lib : AlignLib) (refSeq : String) (m : Model) (c : Chain) : ℚ :=
  lib.score refSeq (sequenceAndResidues m c.id).1

theorem fallbackRun_filter (lib : AlignLib) (refSeq : String) (m : Model) :
    ∀ (cs : List Chain) (st : FallbackState),
      fallbackRun lib refSeq m cs st
        = fallbackRun lib refSeq m
            (cs.filter (fun c => !((sequenceAndResidues m c.id).1 == ""))) st
  | [], st => rfl
  | c :: cs, st => by
    by_cases hc : (sequenceAndResidues m c.id).1 = ""
    · have hstep : fallbackStep lib refSeq m st c = st := by
        unfold fallbackStep
        simp [hc]
      have hfil : (c :: cs).filter (fun c => !((sequenceAndResidues m c.id).1 == ""))
          = cs.filter (fun c => !((sequenceAndResidues m c.id).1 == "")) := by
        rw [List.filter_cons]
        simp [hc]
      rw [fallbackRun, hstep, hfil]
      exact fallbackRun_filter lib refSeq m cs st
    · have hfil : (c :: cs).filter (fun c => !((sequenceAndResidues m c.id).1 == ""))
          = c :: cs.filter (fun c => !((sequenceAndResidues m c.id).1 == "")) := by
        rw [List.filter_cons]
        simp [hc]
      rw [fallbackRun, hfil, fallbackRun]
      exact fallbackRun_filter lib refSeq m cs (fallbackStep lib refSeq m st c)

theorem fallbackRun_spec (lib : AlignLib) (refSeq : String) (m : Model) :
    ∀ (cs : List Chain) (st : FallbackState),
      (∀ c ∈ cs, (sequenceAndResidues m c.id).1 ≠ "") →
      (fallbackRun lib refSeq m cs st = st
          ∧ ∀ c ∈ cs, gtOpt (chainScore lib refSeq m c) st.bestScore = false)
      ∨ (∃ b l₁ l₂, cs = l₁ ++ b :: l₂
          ∧ fallbackRun lib refSeq m cs st = candState lib refSeq m b
          ∧ gtOpt (chainScore lib refSeq m b) st.bestScore = true
          ∧ (∀ x ∈ l₁, chainScore lib refSeq m x < chainScore lib refSeq m b)
          ∧ (∀ x ∈ cs, chainScore lib refSeq m x ≤ chainScore lib refSeq m b)) := by
  intro cs
  induction cs with
  | nil =>
    intro st _
    exact Or.inl ⟨rfl, by intro c hc; exact absurd hc (List.not_mem_nil c)⟩
  | cons c cs ih =>
    intro st hall
    have hc : (sequenceAndResidues m c.id).1 ≠ "" := hall c (List.mem_cons_self _ _)
    have hcs : ∀ x ∈ cs, (sequenceAndResidues m x.id).1 ≠ "" :=
      fun x hx => hall x (List.mem_cons_of_mem _ hx)
    rw [fallbackRun]
    by_cases hgt : gtOpt (chainScore lib refSeq m c) st.bestScore = true
    · have hstep : fallbackStep lib refSeq m st c = candState lib refSeq m c := by
        unfold fallbackStep candState chainScore at *
        simp only [if_neg hc, hgt, if_pos]
      rw [hstep]
      rcases ih (candState lib refSeq m c) hcs with ⟨heq, hrest⟩ | ⟨b, l₁, l₂, hdec, hrun, hgt2, hl₁, hle⟩
      · refine Or.inr ⟨c, [], cs, rfl, heq, hgt, by simp, ?_⟩
        intro x hx
        rcases List.mem_cons.mp hx with rfl | hx
        · exact le_refl _
        · have := hrest x hx
          unfold gtOpt candState at this
          simpa using le_of_not_lt (by simpa using of_decide_eq_false this)
      · have hcb : chainScore lib refSeq m c < chainScore lib refSeq m b := by
          unfold gtOpt candState at hgt2
          simpa using of_decide_eq_true hgt2
        refine Or.inr ⟨b, c :: l₁, l₂, by rw [hdec, List.cons_append], hrun, ?_, ?_, ?_⟩
        · cases hsc : st.bestScore with
          | none => rfl
          | some v =>
            have : v < chainScore lib refSeq m c := by
              rw [hsc] at hgt
              unfold gtOpt at hgt
              exact of_decide_eq_true hgt
            unfold gtOpt
            exact decide_eq_true (lt_trans this hcb)
        · intro x hx
          rcases List.mem_cons.mp hx with rfl | hx
          · exact hcb
          · exact hl₁ x hx
        · intro x hx
          rcases List.mem_cons.mp hx with rfl | hx
          · exact le_of_lt hcb
          · exact hle x (hdec ▸ hx)
    · have hgtf : gtOpt (chainScore lib refSeq m c) st.bestScore = false :=
        Bool.eq_false_iff.mpr hgt
      have hstep : fallbackStep lib refSeq m st c = st := by
        unfold fallbackStep chainScore at *
        simp only [if_neg hc, hgtf, Bool.false_eq_true, if_neg, not_false_eq_true]
      rw [hstep]
      rcases ih st hcs with ⟨heq, hrest⟩ | ⟨b, l₁, l₂, hdec, hrun, hgt2, hl₁, hle⟩
      · refine Or.inl ⟨heq, ?_⟩
        intro x hx
        rcases List.mem_cons.mp hx with rfl | hx
        · exact hgtf
        · exact hrest x hx
      · have hcb : chainScore lib refSeq m c < chainScore lib refSeq m b := by
          cases hsc : st.bestScore with
          | none =>
            rw [hsc] at hgtf
            exact absurd hgtf (by unfold gtOpt; simp)
          | some v =>
            rw [hsc] at hgtf hgt2
            unfold gtOpt at hgtf hgt2
            have h1 : ¬ v < chainScore lib refSeq m c := of_decide_eq_false hgtf
            have h2 : v < chainScore lib refSeq m b := of_decide_eq_true hgt2
            exact lt_of_le_of_lt (le_of_not_lt h1) h2
        refine Or.inr ⟨b, c :: l₁, l₂, by rw [hdec, List.cons_append], hrun, hgt2, ?_, ?_⟩
        · intro x hx
          rcases List.mem_cons.mp hx with rfl | hx
          · exact hcb
          · exact hl₁ x hx
        · intro x hx
          rcases List.mem_cons.mp hx with rfl | hx
          · exact le_of_lt hcb
          · exact hle x (hdec ▸ hx)

/-- C6: when the by-identifier lookup in the model yields no usable
sequence, the fallback of `_map_pocket_residues_to_model` scans every model
chain, scores each chain that has a nonempty extracted sequence against the
reference chain's sequence, and keeps the maximum-scoring one, first
encountered winning ties: the selected chain decomposes the candidate list
as `l₁ ++ b :: l₂` with every chain of `l₁` scoring strictly less and every
candidate scoring at most `b`'s score; the kept `model_seq` and
`model_res_seq` are those of `b`. -/
theorem c6_chain_aligner (lib : AlignLib) (refSeq : String) (m : Model)
    (hcand : chainCandidates m ≠ []) :
    ∃ b l₁ l₂, chainCandidates m = l₁ ++ b :: l₂
      ∧ bestMatchingChain lib refSeq m = candState lib refSeq m b
      ∧ (∀ x ∈ l₁, chainScore lib refSeq m x < chainScore lib refSeq m b)
      ∧ (∀ x ∈ chainCandidates m, chainScore lib refSeq m x ≤ chainScore lib refSeq m b) := by
  have hrw : bestMatchingChain lib refSeq m
      = fallbackRun lib refSeq m (chainCandidates m) ⟨none, none, "", []⟩ :=
    fallbackRun_filter lib refSeq m m.chains _
  have hallc : ∀ c ∈ chainCandidates m, (sequenceAndResidues m c.id).1 ≠ "" := by
    intro c hcmem
    have := (List.mem_filter.mp hcmem).2
    simpa using this
  rcases fallbackRun_spec lib refSeq m (chainCandidates m) ⟨none, none, "", []⟩ hallc with
    ⟨-, hrest⟩ | ⟨b, l₁, l₂, hdec, hrun, -, hl₁, hle⟩
  · rcases List.exists_mem_of_ne_nil _ hcand with ⟨c, hcmem⟩
    have := hrest c hcmem
    exact absurd this (by unfold gtOpt; simp)
  · exact ⟨b, l₁, l₂, hdec, hrw.trans hrun, hl₁, hle⟩

/-- Scoring library for the C6 witness: the score of a candidate sequence
is its length. -/
def c6ExLib : AlignLib := ⟨fun _ _ => [], fun _ t => (t.length : ℚ)⟩

/-- Model for the C6 witness: chain `B` with one residue, chain `C` with
two, so `C` scores higher under `c6ExLib` and must be selected. -/
def c6ExModel : Model :=
  ⟨[⟨"B", [⟨"B", "ALA", 1, ' ', true, true, []⟩]⟩,
    ⟨"C", [⟨"C", "ALA", 1, ' ', true, true, []⟩,
           ⟨"C", "GLY", 2, ' ', true, true, []⟩]⟩]⟩

/-- Witness for C6 on `c6ExModel`. -/
theorem c6_chain_aligner_witness :
    chainCandidates c6ExModel ≠ []
    ∧ ∃ b l₁ l₂, chainCandidates c6ExModel = l₁ ++ b :: l₂
      ∧ bestMatchingChain c6ExLib "AG" c6ExModel = candState c6ExLib "AG" c6ExModel b
      ∧ (∀ x ∈ l₁, chainScore c6ExLib "AG" c6ExModel x
            < chainScore c6ExLib "AG" c6ExModel b)
      ∧ (∀ x ∈ chainCandidates c6ExModel, chainScore c6ExLib "AG" c6ExModel x
            ≤ chainScore c6ExLib "AG" c6ExModel b) :=
  ⟨by decide, c6_chain_aligner c6ExLib "AG" c6ExModel (by decide)⟩

/-! ### Pocket Transfer (`_map_pocket_residues_to_model`) -/

/-- `ref_idx_map = {res: i for i, res in enumerate(ref_res_seq)}`, read at
`res`: a Python dict comprehension keeps the last write, so this is the
index of the last occurrence of `res` (`none` models `res not in
ref_idx_map`). -/
def lastIdxFrom (r : Residue) : List Residue → Nat → Option Nat
  | [], _ => none
  | x :: xs, n =>
    match lastIdxFrom r xs (n + 1) with
    | some i => some i
    | none => if x = r then some n else none

/-- `ref_idx_map[res]` as an optional index. -/
def lastIdx (rs : List Residue) (r : Residue) : Option Nat := lastIdxFrom r rs 0

/-- The unmapped label `f"{res.get_resname()}{res.get_id()[1]}"`. -/
def resLabel (r : Residue) : String := r.resname ++ toString r.seqnum

/-- The body of `for res in chain_residues` in
`_map_pocket_residues_to_model`: the running state is (model pocket set,
mapped count, unmapped labels). A residue outside `ref_idx_map` leaves the
state untouched; a missing alignment entry or an out-of-range model index
appends an unmapped label; otherwise the model residue is added to the
pocket set and the mapped count is incremented. -/
def stepRes (refResSeq modelResSeq : List Residue) (r2m : List (Nat × Nat))
    (st : Finset Residue × Nat × List String) (res : Residue) :
    Finset Residue × Nat × List String :=
  match lastIdx refResSeq res with
  | none => st
  | some refIdx =>
    match pyDictGet r2m refIdx with
    | none => (st.1, st.2.1, st.2.2 ++ [resLabel res])
    | some midx =>
      match modelResSeq.get? midx with
      | some mres => (insert mres st.1, st.2.1 + 1, st.2.2)
      | none => (st.1, st.2.1, st.2.2 ++ [resLabel res])

/-- `for res in chain_residues: ...` over the whole chain group. -/
def mapChainResidues (refResSeq modelResSeq : List Residue) (r2m : List (Nat × Nat)) :
    List Residue → (Finset Residue × Nat × List String) →
      (Finset Residue × Nat × List String)
  | [], st => st
  | r :: rest, st =>
    mapChainResidues refResSeq modelResSeq r2m rest
      (stepRes refResSeq modelResSeq r2m st r)

/-- One step of building `pocket_chains`: append the residue to its chain's
group, or start a new group at the end (Python dict insertion order). -/
def addToGroup : List (String × List Residue) → Residue → List (String × List Residue)
  | [], r => [(r.chainId, [r])]
  | g :: gs, r =>
    if g.1 = r.chainId then (g.1, g.2 ++ [r]) :: gs else g :: addToGroup gs r

/-- The grouping loop `for res in ref_pocket: pocket_chains[chain_id].append(res)`. -/
def grpFold : List Residue → List (String × List Residue) → List (String × List Residue)
  | [], acc => acc
  | r :: rest, acc => grpFold rest (addToGroup acc r)

/-- `pocket_chains` built from an enumeration of the reference pocket set. -/
def pocketChains (pocket : List Residue) : List (String × List Residue) :=
  grpFold pocket []

/-- The `model_seq, model_res_seq` pair actually used for a chain: the
by-identifier extraction when it is nonempty, otherwise whatever the
best-matching-chain fallback left behind (possibly still empty). -/
def effModelSR (lib : AlignLib) (refSeq : String) (modelModel : Model)
    (cid : String) : String × List Residue :=
  let m0 := sequenceAndResidues modelModel cid
  if m0.1 = "" then
    let f := bestMatchingChain lib refSeq modelModel
    (f.seq, f.res)
  else (m0.1, m0.2.1)

/-- The body of `for chain_id, chain_residues in pocket_chains.items()`:
skip the chain (`continue`) when either sequence is empty, otherwise build
the alignment index map and process every pocket residue of the chain. -/
def processChainGroup (lib : AlignLib) (refModel modelModel : Model)
    (st : Finset Residue × Nat × List String) (cg : String × List Residue) :
    Finset Residue × Nat × List String :=
  if (sequenceAndResidues refModel cg.1).1 = ""
      ∨ (effModelSR lib (sequenceAndResidues refModel cg.1).1 modelModel cg.1).1 = ""
  then st
  else
    mapChainResidues (sequenceAndResidues refModel cg.1).2.1
      (effModelSR lib (sequenceAndResidues refModel cg.1).1 modelModel cg.1).2
      (buildMap (lib.coords (sequenceAndResidues refModel cg.1).1
        (effModelSR lib (sequenceAndResidues refModel cg.1).1 modelModel cg.1).1))
      cg.2 st

/-- The per-chain loop of `_map_pocket_residues_to_model`. -/
def runGroups (lib : AlignLib) (refModel modelModel : Model) :
    List (String × List Residue) → (Finset Residue × Nat × List String) →
      (Finset Residue × Nat × List String)
  | [], st => st
  | g :: gs, st =>
    runGroups lib refModel modelModel gs (processChainGroup lib refModel modelModel st g)

/-- The result of `_map_pocket_residues_to_model`: the model pocket set and
the statistics the function accumulates (`ref_pocket_size`,
`mapped_residues`, `unmapped_residues`). -/
structure MapResult where
  pocket : Finset Residue
  refPocketSize : Nat
  mapped : Nat
  unmapped : List String

/-- `_map_pocket_residues_to_model` on an enumeration of the reference
pocket. -/
def mapPocketResiduesToModel (lib : AlignLib) (refModel modelModel : Model)
    (refPocket : List Residue) : MapResult :=
  let fin := runGroups lib refModel modelModel (pocketChains refPocket) (∅, 0, [])
  ⟨fin.1, refPocket.length, fin.2.1, fin.2.2⟩

/-- Total number of residues across chain groups. -/
def totalLen (gs : List (String × List Residue)) : Nat :=
  (gs.map (fun g => g.2.length)).sum

/-! #### Accounting lemmas for the Pocket Transfer -/

theorem lastIdxFrom_isSome (r : Residue) :
    ∀ (xs : List Residue) (n : Nat), (lastIdxFrom r xs n).isSome = true ↔ r ∈ xs
  | [], n => by simp [lastIdxFrom]
  | x :: xs, n => by
    rw [lastIdxFrom]
    cases h : lastIdxFrom r xs (n + 1) with
    | some i =>
      simp only [Option.isSome_some, true_iff]
      have : r ∈ xs := (lastIdxFrom_isSome r xs (n + 1)).mp (by rw [h]; rfl)
      exact List.mem_cons_of_mem _ this
    | none =>
      by_cases hx : x = r
      · simp only [if_pos hx, Option.isSome_some, true_iff]
        exact hx ▸ List.mem_cons_self _ _
      · simp only [if_neg hx, Option.isSome_none, Bool.false_eq_true, false_iff]
        intro hmem
        rcases List.mem_cons.mp hmem with rfl | hmem
        · exact hx rfl
        · have := (lastIdxFrom_isSome r xs (n + 1)).mpr hmem
          rw [h] at this
          exact absurd this (by simp)

theorem mem_of_lastIdx_some {rs : List Residue} {r : Residue} {i : Nat}
    (h : lastIdx rs r = some i) : r ∈ rs :=
  (lastIdxFrom_isSome r rs 0).mp (by rw [lastIdx] at h; rw [h]; rfl)

theorem lastIdx_isSome_of_mem {rs : List Residue} {r : Residue} (h : r ∈ rs) :
    (lastIdx rs r).isSome = true :=
  (lastIdxFrom_isSome r rs 0).mpr h

theorem lastIdxFrom_some_spec (r : Residue) :
    ∀ (xs : List Residue) (n i : Nat), lastIdxFrom r xs n = some i →
      ∃ k, k < xs.length ∧ i = n + k ∧ xs.get? k = some r
  | [], n, i => by simp [lastIdxFrom]
  | x :: xs, n, i => by
    intro h
    rw [lastIdxFrom] at h
    cases hrec : lastIdxFrom r xs (n + 1) with
    | some j =>
      rw [hrec] at h
      cases h
      obtain ⟨k, hk, hik, hget⟩ := lastIdxFrom_some_spec r xs (n + 1) i hrec
      exact ⟨k + 1, by simpa using hk, by omega, by simpa using hget⟩
    | none =>
      rw [hrec] at h
      by_cases hx : x = r
      · rw [if_pos hx] at h
        cases h
        exact ⟨0, by simp, by omega, by simp [hx]⟩
      · rw [if_neg hx] at h
        exact absurd h (by simp)

/-- `lastIdx` returns an in-range index pointing at the residue. -/
theorem lastIdx_some_spec {rs : List Residue} {r : Residue} {i : Nat}
    (h : lastIdx rs r = some i) : i < rs.length ∧ rs.get? i = some r := by
  obtain ⟨k, hk, hik, hget⟩ := lastIdxFrom_some_spec r rs 0 i h
  constructor
  · omega
  · have : i = k := by omega
    rw [this]; exact hget

theorem stepRes_skip {A B : List Residue} {M : List (Nat × Nat)}
    {st : Finset Residue × Nat × List String} {r : Residue}
    (h : lastIdx A r = none) : stepRes A B M st r = st := by
  unfold stepRes
  rw [h]

theorem stepRes_nomap {A B : List Residue} {M : List (Nat × Nat)}
    {st : Finset Residue × Nat × List String} {r : Residue} {i : Nat}
    (h1 : lastIdx A r = some i) (h2 : pyDictGet M i = none) :
    stepRes A B M st r = (st.1, st.2.1, st.2.2 ++ [resLabel r]) := by
  unfold stepRes
  simp only [h1, h2]

theorem stepRes_oob {A B : List Residue} {M : List (Nat × Nat)}
    {st : Finset Residue × Nat × List String} {r : Residue} {i j : Nat}
    (h1 : lastIdx A r = some i) (h2 : pyDictGet M i = some j)
    (h3 : B.get? j = none) :
    stepRes A B M st r = (st.1, st.2.1, st.2.2 ++ [resLabel r]) := by
  unfold stepRes
  simp only [h1, h2, h3]

theorem stepRes_hit {A B : List Residue} {M : List (Nat × Nat)}
    {st : Finset Residue × Nat × List String} {r : Residue} {i j : Nat}
    {mres : Residue} (h1 : lastIdx A r = some i) (h2 : pyDictGet M i = some j)
    (h3 : B.get? j = some mres) :
    stepRes A B M st r = (insert mres st.1, st.2.1 + 1, st.2.2) := by
  unfold stepRes
  simp only [h1, h2, h3]

theorem stepRes_acc (A B : List Residue) (M : List (Nat × Nat))
    (st : Finset Residue × Nat × List String) (r : Residue) :
    ((stepRes A B M st r).2.1 + (stepRes A B M st r).2.2.length
        ≤ st.2.1 + st.2.2.length + 1)
    ∧ (r ∈ A → (stepRes A B M st r).2.1 + (stepRes A B M st r).2.2.length
        = st.2.1 + st.2.2.length + 1)
    ∧ ((stepRes A B M st r).1.card + st.2.1 ≤ st.1.card + (stepRes A B M st r).2.1) := by
  cases hl : lastIdx A r with
  | none =>
    rw [stepRes_skip hl]
    refine ⟨by omega, ?_, by omega⟩
    intro hmem
    have := lastIdx_isSome_of_mem hmem
    rw [hl] at this
    exact absurd this (by simp)
  | some refIdx =>
    cases hd : pyDictGet M refIdx with
    | none =>
      rw [stepRes_nomap hl hd]
      exact ⟨by simp; omega, fun _ => by simp; omega, by simp⟩
    | some midx =>
      cases hg : B.get? midx with
      | some mres =>
        rw [stepRes_hit hl hd hg]
        refine ⟨by simp; omega, fun _ => by simp; omega, ?_⟩
        simp only
        have := Finset.card_insert_le mres st.1
        omega
      | none =>
        rw [stepRes_oob hl hd hg]
        exact ⟨by simp; omega, fun _ => by simp; omega, by simp⟩

theorem mapChain_acc (A B : List Residue) (M : List (Nat × Nat)) :
    ∀ (rs : List Residue) (st : Finset Residue × Nat × List String),
      ((mapChainResidues A B M rs st).2.1 + (mapChainResidues A B M rs st).2.2.length
          ≤ st.2.1 + st.2.2.length + rs.length)
      ∧ ((∀ r ∈ rs, r ∈ A) →
          (mapChainResidues A B M rs st).2.1 + (mapChainResidues A B M rs st).2.2.length
            = st.2.1 + st.2.2.length + rs.length)
      ∧ ((mapChainResidues A B M rs st).1.card + st.2.1
          ≤ st.1.card + (mapChainResidues A B M rs st).2.1)
  | [], st => ⟨by simp [mapChainResidues], fun _ => by simp [mapChainResidues],
      by simp [mapChainResidues]⟩
  | r :: rest, st => by
    rw [mapChainResidues]
    obtain ⟨hle, heq, hcard⟩ := mapChain_acc A B M rest (stepRes A B M st r)
    obtain ⟨hle1, heq1, hcard1⟩ := stepRes_acc A B M st r
    refine ⟨by simp only [List.length_cons]; omega, ?_, by omega⟩
    intro hall
    have h1 := heq1 (hall r (List.mem_cons_self _ _))
    have h2 := heq (fun x hx => hall x (List.mem_cons_of_mem _ hx))
    simp only [List.length_cons]
    omega

/-- The skip condition of a chain group, negated: both the reference chain
sequence and the effectively used model sequence are nonempty. -/
abbrev GroupUsable (lib : AlignLib) (refModel modelModel : Model)
    (cg : String × List Residue) : Prop :=
  (sequenceAndResidues refModel cg.1).1 ≠ ""
  ∧ (effModelSR lib (sequenceAndResidues refModel cg.1).1 modelModel cg.1).1 ≠ ""

theorem processChainGroup_acc (lib : AlignLib) (refModel modelModel : Model)
    (st : Finset Residue × Nat × List String) (cg : String × List Residue) :
    ((processChainGroup lib refModel modelModel st cg).2.1
        + (processChainGroup lib refModel modelModel st cg).2.2.length
        ≤ st.2.1 + st.2.2.length + cg.2.length)
    ∧ ((GroupUsable lib refModel modelModel cg
          ∧ ∀ r ∈ cg.2, r ∈ (sequenceAndResidues refModel cg.1).2.1) →
        (processChainGroup lib refModel modelModel st cg).2.1
          + (processChainGroup lib refModel modelModel st cg).2.2.length
          = st.2.1 + st.2.2.length + cg.2.length)
    ∧ ((processChainGroup lib refModel modelModel st cg).1.card + st.2.1
        ≤ st.1.card + (processChainGroup lib refModel modelModel st cg).2.1) := by
  unfold processChainGroup
  by_cases hskip : (sequenceAndResidues refModel cg.1).1 = ""
      ∨ (effModelSR lib (sequenceAndResidues refModel cg.1).1 modelModel cg.1).1 = ""
  · rw [if_pos hskip]
    refine ⟨by omega, ?_, by omega⟩
    rintro ⟨⟨h1, h2⟩, -⟩
    exact (not_or.mpr ⟨h1, h2⟩ hskip).elim
  · rw [if_neg hskip]
    obtain ⟨hle, heq, hcard⟩ := mapChain_acc (sequenceAndResidues refModel cg.1).2.1
      (effModelSR lib (sequenceAndResidues refModel cg.1).1 modelModel cg.1).2
      (buildMap (lib.coords (sequenceAndResidues refModel cg.1).1
        (effModelSR lib (sequenceAndResidues refModel cg.1).1 modelModel cg.1).1))
      cg.2 st
    exact ⟨hle, fun h => heq h.2, hcard⟩

theorem runGroups_acc (lib : AlignLib) (refModel modelModel : Model) :
    ∀ (gs : List (String × List Residue)) (st : Finset Residue × Nat × List String),
      ((runGroups lib refModel modelModel gs st).2.1
          + (runGroups lib refModel modelModel gs st).2.2.length
          ≤ st.2.1 + st.2.2.length + totalLen gs)
      ∧ ((∀ cg ∈ gs, GroupUsable lib refModel modelModel cg
            ∧ ∀ r ∈ cg.2, r ∈ (sequenceAndResidues refModel cg.1).2.1) →
          (runGroups lib refModel modelModel gs st).2.1
            + (runGroups lib refModel modelModel gs st).2.2.length
            = st.2.1 + st.2.2.length + totalLen gs)
      ∧ ((runGroups lib refModel modelModel gs st).1.card + st.2.1
          ≤ st.1.card + (runGroups lib refModel modelModel gs st).2.1)
  | [], st => ⟨by simp [runGroups, totalLen], fun _ => by simp [runGroups, totalLen],
      by simp [runGroups]⟩
  | g :: gs, st => by
    rw [runGroups]
    obtain ⟨hle, heq, hcard⟩ :=
      runGroups_acc lib refModel modelModel gs (processChainGroup lib refModel modelModel st g)
    obtain ⟨hle1, heq1, hcard1⟩ := processChainGroup_acc lib refModel modelModel st g
    have htot : totalLen (g :: gs) = g.2.length + totalLen gs := by
      simp [totalLen]
    refine ⟨by omega, ?_, by omega⟩
    intro hall
    have h1 := heq1 (hall g (List.mem_cons_self _ _))
    have h2 := heq (fun x hx => hall x (List.mem_cons_of_mem _ hx))
    omega

theorem addToGroup_totalLen (r : Residue) :
    ∀ (acc : List (String × List Residue)),
      totalLen (addToGroup acc r) = totalLen acc + 1
  | [] => by simp [addToGroup, totalLen]
  | g :: gs => by
    rw [addToGroup]
    by_cases h : g.1 = r.chainId
    · rw [if_pos h]
      simp [totalLen]
      omega
    · rw [if_neg h]
      have := addToGroup_totalLen r gs
      simp only [totalLen, List.map_cons, List.sum_cons] at *
      omega

theorem grpFold_totalLen :
    ∀ (pocket : List Residue) (acc : List (String × List Residue)),
      totalLen (grpFold pocket acc) = totalLen acc + pocket.length
  | [], acc => by simp [grpFold]
  | r :: rest, acc => by
    rw [grpFold]
    have h1 := grpFold_totalLen rest (addToGroup acc r)
    have h2 := addToGroup_totalLen r acc
    simp only [List.length_cons]
    omega

/-- The pocket residues, counted across chain groups, are exactly the
reference pocket. -/
theorem pocketChains_totalLen (pocket : List Residue) :
    totalLen (pocketChains pocket) = pocket.length := by
  have := grpFold_totalLen pocket []
  simpa [pocketChains, totalLen] using this

/-- Alignment library used by the C3 counterexample (never reached: the
chain is skipped before any alignment is requested). -/
def c3ExLib : AlignLib := ⟨fun _ _ => [], fun _ _ => 0⟩

/-- The single reference pocket residue of the C3 counterexample. -/
def c3ExRes : Residue := ⟨"A", "ALA", 12, ' ', true, true, []⟩

/-- Reference model of the C3 counterexample: chain `A` with one residue. -/
def c3ExRef : Model := ⟨[⟨"A", [c3ExRes]⟩]⟩

/-- Predicted model of the C3 counterexample: no chains at all, so chain
`A` has no usable sequence and the fallback search finds nothing. -/
def c3ExModelEmpty : Model := ⟨[]⟩

/-- C3 counterexample: with one pocket residue on a chain that has no
usable sequence in the model, `_map_pocket_residues_to_model` records the
residue neither as mapped nor as unmapped (`continue` drops the whole
chain), so `mapped_residues + len(unmapped_residues) = 0` while
`ref_pocket_size = 1` — the claimed accounting identity fails. -/
theorem c3_counterexample :
    (mapPocketResiduesToModel c3ExLib c3ExRef c3ExModelEmpty [c3ExRes]).mapped
        + (mapPocketResiduesToModel c3ExLib c3ExRef c3ExModelEmpty [c3ExRes]).unmapped.length
        = 0
    ∧ (mapPocketResiduesToModel c3ExLib c3ExRef c3ExModelEmpty [c3ExRes]).refPocketSize = 1
    ∧ ¬ ((mapPocketResiduesToModel c3ExLib c3ExRef c3ExModelEmpty [c3ExRes]).mapped
        + (mapPocketResiduesToModel c3ExLib c3ExRef c3ExModelEmpty [c3ExRes]).unmapped.length
        = (mapPocketResiduesToModel c3ExLib c3ExRef c3ExModelEmpty [c3ExRes]).refPocketSize) := by
  refine ⟨by decide, by decide, by decide⟩

/-- C3, amended: a pocket residue is recorded as mapped or as unmapped only
when its chain survives the skip check (nonempty reference sequence and
nonempty effective model sequence) and the residue occurs in the chain's
extracted residue list; residues of skipped chains, and residues outside
`ref_idx_map`, are silently dropped. Hence
`mapped_residues + len(unmapped_residues) ≤ ref_pocket_size` always, with
equality whenever every chain group is usable and every pocket residue
occurs in its chain's extracted residue list. -/
theorem c3_amended (lib : AlignLib) (refModel modelModel : Model)
    (pocket : List Residue) :
    ((mapPocketResiduesToModel lib refModel modelModel pocket).mapped
        + (mapPocketResiduesToModel lib refModel modelModel pocket).unmapped.length
        ≤ (mapPocketResiduesToModel lib refModel modelModel pocket).refPocketSize)
    ∧ ((∀ cg ∈ pocketChains pocket, GroupUsable lib refModel modelModel cg
          ∧ ∀ r ∈ cg.2, r ∈ (sequenceAndResidues refModel cg.1).2.1) →
        (mapPocketResiduesToModel lib refModel modelModel pocket).mapped
          + (mapPocketResiduesToModel lib refModel modelModel pocket).unmapped.length
          = (mapPocketResiduesToModel lib refModel modelModel pocket).refPocketSize) := by
  obtain ⟨hle, heq, -⟩ :=
    runGroups_acc lib refModel modelModel (pocketChains pocket) (∅, 0, [])
  have htot := pocketChains_totalLen pocket
  constructor
  · show (runGroups lib refModel modelModel (pocketChains pocket) (∅, 0, [])).2.1
        + (runGroups lib refModel modelModel (pocketChains pocket) (∅, 0, [])).2.2.length
        ≤ pocket.length
    have h2 : (runGroups lib refModel modelModel (pocketChains pocket) (∅, 0, [])).2.1
        + (runGroups lib refModel modelModel (pocketChains pocket) (∅, 0, [])).2.2.length
        ≤ totalLen (pocketChains pocket) := by simpa using hle
    omega
  · intro hall
    show (runGroups lib refModel modelModel (pocketChains pocket) (∅, 0, [])).2.1
        + (runGroups lib refModel modelModel (pocketChains pocket) (∅, 0, [])).2.2.length
        = pocket.length
    have h2 : (runGroups lib refModel modelModel (pocketChains pocket) (∅, 0, [])).2.1
        + (runGroups lib refModel modelModel (pocketChains pocket) (∅, 0, [])).2.2.length
        = totalLen (pocketChains pocket) := by simpa using heq hall
    omega

/-- Alignment library for the C3 amended-claim witness: the coordinates of
any alignment are the single full block of the reference sequence. -/
def c3WLib : AlignLib := ⟨fun a _ => [(0, 0), (a.length, a.length)], fun _ _ => 0⟩

/-- Reference pocket residue of the C3 amended-claim witness. -/
def c3WRes : Residue := ⟨"A", "ALA", 1, ' ', true, true, []⟩

/-- Model-side counterpart residue of the C3 amended-claim witness. -/
def c3WModelRes : Residue := ⟨"A", "ALA", 1, ' ', true, true, [⟨0, 0, 0⟩]⟩

/-- Reference model of the C3 amended-claim witness. -/
def c3WRef : Model := ⟨[⟨"A", [c3WRes]⟩]⟩

/-- Predicted model of the C3 amended-claim witness. -/
def c3WModel : Model := ⟨[⟨"A", [c3WModelRes]⟩]⟩

/-- Witness for the amended C3 on a one-residue pocket whose chain is
usable on both sides: the accounting identity holds with equality. -/
theorem c3_amended_witness :
    (∀ cg ∈ pocketChains [c3WRes], GroupUsable c3WLib c3WRef c3WModel cg
        ∧ ∀ r ∈ cg.2, r ∈ (sequenceAndResidues c3WRef cg.1).2.1)
    ∧ (mapPocketResiduesToModel c3WLib c3WRef c3WModel [c3WRes]).mapped
        + (mapPocketResiduesToModel c3WLib c3WRef c3WModel [c3WRes]).unmapped.length
        = (mapPocketResiduesToModel c3WLib c3WRef c3WModel [c3WRes]).refPocketSize :=
  ⟨by decide, (c3_amended c3WLib c3WRef c3WModel [c3WRes]).2 (by decide)⟩

/-- Alignment library for the C10 strictness example: full-block
coordinates, constant score. -/
def c10Lib : AlignLib := ⟨fun a _ => [(0, 0), (a.length, a.length)], fun _ _ => 0⟩

/-- C10 example: pocket residue on reference chain `A`. -/
def c10rA : Residue := ⟨"A", "ALA", 1, ' ', true, true, []⟩

/-- C10 example: pocket residue on reference chain `B`. -/
def c10rB : Residue := ⟨"B", "ALA", 2, ' ', true, true, []⟩

/-- C10 example: the single model residue both pocket residues land on. -/
def c10m1 : Residue := ⟨"C", "ALA", 1, ' ', true, true, []⟩

/-- C10 example reference model: two one-residue chains. -/
def c10Ref : Model := ⟨[⟨"A", [c10rA]⟩, ⟨"B", [c10rB]⟩]⟩

/-- C10 example predicted model: a single chain `C`, so both reference
chains fall back to it. -/
def c10Model : Model := ⟨[⟨"C", [c10m1]⟩]⟩

/-- C10: the model pocket is a set while `mapped_residues` counts every
successful mapping, so `len(model_pocket) ≤ mapped_residues` for every
input; and on the two-chains-fall-back-to-one-chain example the inequality
is strict with `unmapped_residues == []`, making the reported difference
`ref_pocket_size - len(model_pocket)` nonzero even though nothing is
unmapped. -/
theorem c10_pocket_card :
    (∀ (lib : AlignLib) (refModel modelModel : Model) (pocket : List Residue),
        (mapPocketResiduesToModel lib refModel modelModel pocket).pocket.card
          ≤ (mapPocketResiduesToModel lib refModel modelModel pocket).mapped)
    ∧ ((mapPocketResiduesToModel c10Lib c10Ref c10Model [c10rA, c10rB]).pocket.card
          < (mapPocketResiduesToModel c10Lib c10Ref c10Model [c10rA, c10rB]).mapped
        ∧ (mapPocketResiduesToModel c10Lib c10Ref c10Model [c10rA, c10rB]).unmapped = []
        ∧ (mapPocketResiduesToModel c10Lib c10Ref c10Model [c10rA, c10rB]).refPocketSize
            - (mapPocketResiduesToModel c10Lib c10Ref c10Model [c10rA, c10rB]).pocket.card
            ≠ 0) := by
  constructor
  · intro lib refModel modelModel pocket
    obtain ⟨-, -, hcard⟩ :=
      runGroups_acc lib refModel modelModel (pocketChains pocket) (∅, 0, [])
    show (runGroups lib refModel modelModel (pocketChains pocket) (∅, 0, [])).1.card
        ≤ (runGroups lib refModel modelModel (pocketChains pocket) (∅, 0, [])).2.1
    have h2 := hcard
    simp only [Finset.card_empty] at h2
    omega
  · exact ⟨by decide, by decide, by decide⟩

/-! #### The 100%-identity scenario (C8) -/

theorem seqAndRes_length (rs : List Residue) : (seqAndRes rs).1.length = rs.length := by
  simp [seqAndRes, seqAndResAux_len]

theorem seqAndRes_res (rs : List Residue) : (seqAndRes rs).2.1 = rs := by
  simp [seqAndRes, seqAndResAux_res_eq]

theorem sequenceAndResidues_res_len (m : Model) (cid : String) :
    (sequenceAndResidues m cid).2.1.length = (sequenceAndResidues m cid).1.length := by
  unfold sequenceAndResidues
  rw [seqAndRes_length, seqAndRes_res]

/-- On the gap-free full-length alignment of two length-`n` sequences the
Index Mapper produces the identity map on `{0, ..., n-1}`. -/
theorem buildMap_diag (n : Nat) :
    buildMap [(0, 0), (n, n)] = (List.range n).map (fun i => (i, i)) := by
  cases n with
  | zero => simp [buildMap, blockPairs]
  | succ k => simp [buildMap, blockPairs]

theorem lookup_diag : ∀ (l : List Nat) (i : Nat), i ∈ l →
    List.lookup i (l.map (fun j => (j, j))) = some i
  | [], i, h => absurd h (List.not_mem_nil i)
  | j :: rest, i, h => by
    rw [List.map_cons, List.lookup]
    by_cases hij : i = j
    · subst hij
      simp
    · rw [beq_eq_false_iff_ne.mpr hij]
      exact lookup_diag rest i (by
        rcases List.mem_cons.mp h with rfl | hmem
        · exact absurd rfl hij
        · exact hmem)

theorem pyDictGet_diag {n i : Nat} (h : i < n) :
    pyDictGet ((List.range n).map (fun j => (j, j))) i = some i := by
  unfold pyDictGet
  rw [← List.map_reverse]
  exact lookup_diag _ i (List.mem_reverse.mpr (List.mem_range.mpr h))

/-- The model residue a reference pocket residue lands on, when every step
of the per-residue lookup chain succeeds. -/
def stepTarget (A B : List Residue) (M : List (Nat × Nat)) (r : Residue) :
    Option Residue :=
  match lastIdx A r with
  | none => none
  | some i =>
    match pyDictGet M i with
    | none => none
    | some j => B.get? j

theorem stepRes_of_target {A B : List Residue} {M : List (Nat × Nat)}
    {r mr : Residue} (h : stepTarget A B M r = some mr)
    (st : Finset Residue × Nat × List String) :
    stepRes A B M st r = (insert mr st.1, st.2.1 + 1, st.2.2) := by
  unfold stepTarget at h
  cases hl : lastIdx A r with
  | none =>
    simp only [hl] at h
    exact Option.noConfusion h
  | some i =>
    simp only [hl] at h
    cases hd : pyDictGet M i with
    | none =>
      simp only [hd] at h
      exact Option.noConfusion h
    | some j =>
      simp only [hd] at h
      exact stepRes_hit hl hd h

theorem mapChain_success (A B : List Residue) (M : List (Nat × Nat)) :
    ∀ (rs : List Residue) (st : Finset Residue × Nat × List String),
      (∀ r ∈ rs, (stepTarget A B M r).isSome = true) →
      ((mapChainResidues A B M rs st).2.1 = st.2.1 + rs.length)
      ∧ ((mapChainResidues A B M rs st).2.2 = st.2.2)
      ∧ (∀ x ∈ st.1, x ∈ (mapChainResidues A B M rs st).1)
      ∧ (∀ r ∈ rs, ∀ mr, stepTarget A B M r = some mr →
          mr ∈ (mapChainResidues A B M rs st).1)
  | [], st, _ => ⟨by simp [mapChainResidues], by simp [mapChainResidues],
      fun x hx => by simpa [mapChainResidues] using hx,
      fun r hr => absurd hr (List.not_mem_nil r)⟩
  | r :: rest, st, hsucc => by
    have hr := hsucc r (List.mem_cons_self _ _)
    obtain ⟨mr0, hmr0⟩ := Option.isSome_iff_exists.mp hr
    have hstep := stepRes_of_target hmr0 st
    rw [mapChainResidues, hstep]
    obtain ⟨ihm, ihu, ihpre, ihtgt⟩ := mapChain_success A B M rest
      (insert mr0 st.1, st.2.1 + 1, st.2.2)
      (fun x hx => hsucc x (List.mem_cons_of_mem _ hx))
    refine ⟨by rw [ihm]; simp; omega, by rw [ihu], ?_, ?_⟩
    · intro x hx
      exact ihpre x (Finset.mem_insert_of_mem hx)
    · intro r2 hr2 mr hmr
      rcases List.mem_cons.mp hr2 with rfl | hr2
      · rw [hmr0] at hmr
        cases hmr
        exact ihpre mr0 (Finset.mem_insert_self _ _)
      · exact ihtgt r2 hr2 mr hmr

theorem grpFold_const (cid : String) :
    ∀ (ps : List Residue) (acc : List Residue),
      (∀ r ∈ ps, r.chainId = cid) →
      grpFold ps [(cid, acc)] = [(cid, acc ++ ps)]
  | [], acc, _ => by simp [grpFold]
  | r :: rest, acc, h => by
    rw [grpFold]
    have hr : r.chainId = cid := h r (List.mem_cons_self _ _)
    have hadd : addToGroup [(cid, acc)] r = [(cid, acc ++ [r])] := by
      unfold addToGroup
      rw [if_pos hr.symm]
    rw [hadd, grpFold_const cid rest (acc ++ [r])
      (fun x hx => h x (List.mem_cons_of_mem _ hx))]
    simp

/-- When every pocket residue lies on the same chain, `pocket_chains` is a
single group holding the whole pocket in order. -/
theorem pocketChains_const {cid : String} {pocket : List Residue}
    (h : ∀ r ∈ pocket, r.chainId = cid) (hne : pocket ≠ []) :
    pocketChains pocket = [(cid, pocket)] := by
  cases pocket with
  | nil => exact absurd rfl hne
  | cons r rest =>
    have hr : r.chainId = cid := h r (List.mem_cons_self _ _)
    unfold pocketChains
    rw [grpFold]
    have h0 : addToGroup [] r = [(cid, [r])] := by
      unfold addToGroup
      rw [hr]
    rw [h0, grpFold_const cid rest [r]
      (fun x hx => h x (List.mem_cons_of_mem _ hx))]
    simp

theorem effModelSR_of_nonempty (lib : AlignLib) (refSeq : String)
    (modelModel : Model) (cid : String)
    (h : ¬ (sequenceAndResidues modelModel cid).1 = "") :
    effModelSR lib refSeq modelModel cid
      = ((sequenceAndResidues modelModel cid).1,
         (sequenceAndResidues modelModel cid).2.1) := by
  unfold effModelSR
  rw [if_neg h]

theorem processChainGroup_active (lib : AlignLib) (refModel modelModel : Model)
    (st : Finset Residue × Nat × List String) (cg : String × List Residue)
    (h1 : ¬ (sequenceAndResidues refModel cg.1).1 = "")
    (h2 : ¬ (effModelSR lib (sequenceAndResidues refModel cg.1).1 modelModel cg.1).1 = "") :
    processChainGroup lib refModel modelModel st cg
      = mapChainResidues (sequenceAndResidues refModel cg.1).2.1
          (effModelSR lib (sequenceAndResidues refModel cg.1).1 modelModel cg.1).2
          (buildMap (lib.coords (sequenceAndResidues refModel cg.1).1
            (effModelSR lib (sequenceAndResidues refModel cg.1).1 modelModel cg.1).1))
          cg.2 st := by
  unfold processChainGroup
  rw [if_neg (not_or.mpr ⟨h1, h2⟩)]

/-- C8: when the model chain's extracted sequence is character-for-character
the reference chain's sequence and the aligner returns the gap-free
full-length alignment (`coordinates = [[0, n], [0, n]]`), the AlignmentMap
is the identity on `{0, ..., n-1}`; every pocket residue of that chain maps
to the model residue at the same sequence position; `mapped_residues`
equals the pocket size (2 in the spec's scenario); and
`unmapped_residues = []`. -/
theorem c8_identity_transfer (lib : AlignLib) (refModel modelModel : Model)
    (cid : String) (pocket : List Residue)
    (h1 : (sequenceAndResidues refModel cid).1 ≠ "")
    (h2 : (sequenceAndResidues modelModel cid).1 = (sequenceAndResidues refModel cid).1)
    (h3 : lib.coords (sequenceAndResidues refModel cid).1
            (sequenceAndResidues refModel cid).1
        = [(0, 0), ((sequenceAndResidues refModel cid).1.length,
            (sequenceAndResidues refModel cid).1.length)])
    (h4 : ∀ r ∈ pocket, r.chainId = cid)
    (h5 : ∀ r ∈ pocket, r ∈ (sequenceAndResidues refModel cid).2.1) :
    buildMap (lib.coords (sequenceAndResidues refModel cid).1
        (sequenceAndResidues modelModel cid).1)
      = (List.range (sequenceAndResidues refModel cid).1.length).map (fun i => (i, i))
    ∧ (mapPocketResiduesToModel lib refModel modelModel pocket).mapped = pocket.length
    ∧ (mapPocketResiduesToModel lib refModel modelModel pocket).unmapped = []
    ∧ ∀ r ∈ pocket, ∃ i mr,
        lastIdx (sequenceAndResidues refModel cid).2.1 r = some i
        ∧ (sequenceAndResidues modelModel cid).2.1.get? i = some mr
        ∧ mr ∈ (mapPocketResiduesToModel lib refModel modelModel pocket).pocket := by
  have hdiag : buildMap (lib.coords (sequenceAndResidues refModel cid).1
      (sequenceAndResidues modelModel cid).1)
      = (List.range (sequenceAndResidues refModel cid).1.length).map (fun i => (i, i)) := by
    rw [h2, h3, buildMap_diag]
  have hreslen : (sequenceAndResidues refModel cid).2.1.length
      = (sequenceAndResidues refModel cid).1.length :=
    sequenceAndResidues_res_len refModel cid
  have hmlen : (sequenceAndResidues modelModel cid).2.1.length
      = (sequenceAndResidues refModel cid).1.length := by
    rw [sequenceAndResidues_res_len modelModel cid, h2]
  have htgt : ∀ r ∈ pocket, ∃ i mr,
      lastIdx (sequenceAndResidues refModel cid).2.1 r = some i
      ∧ (sequenceAndResidues modelModel cid).2.1.get? i = some mr
      ∧ stepTarget (sequenceAndResidues refModel cid).2.1
          (sequenceAndResidues modelModel cid).2.1
          ((List.range (sequenceAndResidues refModel cid).1.length).map (fun i => (i, i)))
          r = some mr := by
    intro r hrp
    have hmem := h5 r hrp
    obtain ⟨i, hi⟩ := Option.isSome_iff_exists.mp (lastIdx_isSome_of_mem hmem)
    obtain ⟨hlt, -⟩ := lastIdx_some_spec hi
    have hlt2 : i < (sequenceAndResidues refModel cid).1.length := by omega
    have hget : ∃ mr, (sequenceAndResidues modelModel cid).2.1.get? i = some mr := by
      have : i < (sequenceAndResidues modelModel cid).2.1.length := by omega
      exact ⟨_, List.get?_eq_get this⟩
    obtain ⟨mr, hmr⟩ := hget
    refine ⟨i, mr, hi, hmr, ?_⟩
    unfold stepTarget
    simp only [hi, pyDictGet_diag hlt2, hmr]
  rcases em (pocket = []) with rfl | hne
  · refine ⟨hdiag, by simp [mapPocketResiduesToModel, pocketChains, grpFold, runGroups], ?_, ?_⟩
    · simp [mapPocketResiduesToModel, pocketChains, grpFold, runGroups]
    · intro r hr
      exact absurd hr (List.not_mem_nil r)
  · have hgrp := pocketChains_const h4 hne
    have hm0 : ¬ (sequenceAndResidues modelModel cid).1 = "" := by
      rw [h2]; exact h1
    have heff := effModelSR_of_nonempty lib
      (sequenceAndResidues refModel cid).1 modelModel cid hm0
    have heff1 : (effModelSR lib (sequenceAndResidues refModel cid).1 modelModel cid).1
        = (sequenceAndResidues modelModel cid).1 := by rw [heff]
    have heff2 : (effModelSR lib (sequenceAndResidues refModel cid).1 modelModel cid).2
        = (sequenceAndResidues modelModel cid).2.1 := by rw [heff]
    have hrun : runGroups lib refModel modelModel (pocketChains pocket) (∅, 0, [])
        = mapChainResidues (sequenceAndResidues refModel cid).2.1
            (sequenceAndResidues modelModel cid).2.1
            ((List.range (sequenceAndResidues refModel cid).1.length).map (fun i => (i, i)))
            pocket (∅, 0, []) := by
      rw [hgrp, runGroups, runGroups]
      rw [processChainGroup_active lib refModel modelModel (∅, 0, [])
        (cid, pocket) h1 (by rw [heff1]; exact hm0)]
      rw [heff1, heff2, hdiag]
    obtain ⟨hsm, hsu, hspre, hstgt⟩ := mapChain_success
      (sequenceAndResidues refModel cid).2.1
      (sequenceAndResidues modelModel cid).2.1
      ((List.range (sequenceAndResidues refModel cid).1.length).map (fun i => (i, i)))
      pocket (∅, 0, [])
      (fun r hr => by
        obtain ⟨i, mr, -, -, ht⟩ := htgt r hr
        rw [ht]; rfl)
    refine ⟨hdiag, ?_, ?_, ?_⟩
    · show (runGroups lib refModel modelModel (pocketChains pocket) (∅, 0, [])).2.1
          = pocket.length
      rw [hrun, hsm]
      simp
    · show (runGroups lib refModel modelModel (pocketChains pocket) (∅, 0, [])).2.2 = []
      rw [hrun, hsu]
    · intro r hr
      obtain ⟨i, mr, hli, hgi, ht⟩ := htgt r hr
      refine ⟨i, mr, hli, hgi, ?_⟩
      show mr ∈ (runGroups lib refModel modelModel (pocketChains pocket) (∅, 0, [])).1
      rw [hrun]
      exact hstgt r hr mr ht

/-- Alignment library for the C8 witness: the coordinates of any alignment
are the single full block of the reference sequence. -/
def c8WLib : AlignLib :=
  ⟨fun a _ => [(0, 0), (a.length, a.length)], fun _ _ => 0⟩

/-- C8 witness reference residues (the spec's `ALA12` and `GLY45`, plus a
third residue outside the pocket). -/
def c8Wr1 : Residue := ⟨"A", "ALA", 12, ' ', true, true, []⟩

/-- Second pocket residue of the C8 witness. -/
def c8Wr2 : Residue := ⟨"A", "GLY", 45, ' ', true, true, []⟩

/-- Non-pocket residue of the C8 witness. -/
def c8Wr3 : Residue := ⟨"A", "SER", 50, ' ', true, true, []⟩

/-- C8 witness reference model: chain `A` with sequence `AGS`. -/
def c8WRef : Model := ⟨[⟨"A", [c8Wr1, c8Wr2, c8Wr3]⟩]⟩

/-- C8 witness predicted model: chain `A` with the identical sequence
`AGS` on distinct residue objects. -/
def c8WModel : Model :=
  ⟨[⟨"A", [⟨"A", "ALA", 12, ' ', true, true, [⟨1, 1, 1⟩]⟩,
           ⟨"A", "GLY", 45, ' ', true, true, [⟨2, 2, 2⟩]⟩,
           ⟨"A", "SER", 50, ' ', true, true, [⟨3, 3, 3⟩]⟩]⟩]⟩

/-- Witness for C8 on the two-residue pocket `{ALA12, GLY45}` of chain `A`
with identical reference and model sequences: `mapped_residues == 2` and
`unmapped_residues == []`. -/
theorem c8_identity_transfer_witness :
    ((sequenceAndResidues c8WRef "A").1 ≠ ""
      ∧ (sequenceAndResidues c8WModel "A").1 = (sequenceAndResidues c8WRef "A").1
      ∧ c8WLib.coords (sequenceAndResidues c8WRef "A").1 (sequenceAndResidues c8WRef "A").1
          = [(0, 0), ((sequenceAndResidues c8WRef "A").1.length,
              (sequenceAndResidues c8WRef "A").1.length)]
      ∧ (∀ r ∈ [c8Wr1, c8Wr2], r.chainId = "A")
      ∧ (∀ r ∈ [c8Wr1, c8Wr2], r ∈ (sequenceAndResidues c8WRef "A").2.1))
    ∧ (mapPocketResiduesToModel c8WLib c8WRef c8WModel [c8Wr1, c8Wr2]).mapped = 2
    ∧ (mapPocketResiduesToModel c8WLib c8WRef c8WModel [c8Wr1, c8Wr2]).unmapped = [] := by
  have h := c8_identity_transfer c8WLib c8WRef c8WModel "A" [c8Wr1, c8Wr2]
    (by decide) (by decide) rfl (by decide) (by decide)
  exact ⟨⟨by decide, by decide, rfl, by decide, by decide⟩,
    by simpa using h.2.1, h.2.2.1⟩

/-- `set.add` on an insertion-ordered list: append the element when it is
not already present.  This is the same pocket construction as
`pocketFromAtoms`, carried out on a concrete enumeration (a Python set is
unordered; any fixed enumeration is a faithful model). -/
def listInsert (acc : List Residue) (r : Residue) : List Residue :=
  if r ∈ acc then acc else acc ++ [r]

/-- The nested pocket loops of `_compute_reference_pocket` producing the
enumeration the orchestrator then iterates over. -/
def pocketListFromAtoms (m : Model) (latoms : List Atom3) (cutoff : ℚ) :
    List Residue :=
  if latoms.isEmpty then []
  else latoms.foldl (fun acc la =>
    (nsSearch m la cutoff).foldl (fun acc2 r =>
      if r.hetflag = ' ' ∧ r.isAA = true then listInsert acc2 r else acc2) acc) []

/-- `_compute_reference_pocket`, list-valued. -/
def computeReferencePocketList (m : Model) (lig : String) (cutoff : ℚ) :
    List Residue :=
  pocketListFromAtoms m (ligandAtoms m lig) cutoff

/-! ### Batch Orchestrator (`process_finished_outputs`) -/

/-- One subdirectory entry of the base directory, with the observable
outcomes of the filesystem and parser calls the orchestrator makes on it:
whether the model coordinate file exists and what parsing it yields
(`Except.error` models a raised parse exception), and likewise for the
concatenated `ref_prot.pdb`/`ref_lig.pdb` reference complex. -/
structure DirEntry where
  isDir : Bool
  name : String
  hasModelFile : Bool
  modelParse : Except String Model
  hasRefProt : Bool
  hasRefLig : Bool
  refParse : Except String Model

/-- One record of the run-level `summary` list. -/
structure SummaryItem where
  name : String
  refPocketSize : Nat
  af3PocketSize : Nat
  difference : Int
  unmapped : Nat
deriving DecidableEq

/-- `f"Skipping '{name}': not in <pdbid>_<ligandid> format"`. -/
def skipMsg (n : String) : String :=
  "Skipping " ++ n ++ ": not in pdbid_ligandid format"

/-- The model-file-missing warning. -/
def wModelMissing : String := "Warning: model file not found"

/-- The missing-reference-files warning. -/
def wRefMissing : String := "Warning: missing ref_prot.pdb or ref_lig.pdb"

/-- The empty-pocket / ligand-not-found warning. -/
def wEmptyPocket (lig : String) : String :=
  "Warning: empty pocket or ligand " ++ lig ++ " not found"

/-- The could-not-map warning. -/
def wNoMap : String := "Warning: could not map pocket to AF3 model"

/-- The warnings of section (A): none when the model file exists, one
warning otherwise. -/
def modelWarnings (e : DirEntry) : List String :=
  if e.hasModelFile then [] else [wModelMissing]

/-- Section (A) of the loop body: parse the predicted model when its file
exists; a parse exception propagates. -/
def af3ParseResult (e : DirEntry) : Except String (Option Model) :=
  if e.hasModelFile then
    match e.modelParse with
    | .ok m => .ok (some m)
    | .error msg => .error msg
  else .ok none

/-- The rest of the loop body once the reference complex has been parsed:
compute the reference pocket, skip with a warning when it is empty (which
covers the ligand-not-found case), otherwise map it onto the AF3 model and
either record a summary line or warn that nothing mapped. -/
def entryRefOutcome (lib : AlignLib) (cutoff : ℚ) (e : DirEntry)
    (af3 : Option Model) (lig : String) (refM : Model) :
    Option SummaryItem × List String :=
  if computeReferencePocketList refM lig cutoff = [] then
    (none, modelWarnings e ++ [wEmptyPocket lig])
  else
    match af3 with
    | none => (none, modelWarnings e)
    | some am =>
      if (mapPocketResiduesToModel lib refM am
            (computeReferencePocketList refM lig cutoff)).pocket = ∅ then
        (none, modelWarnings e ++ [wNoMap])
      else
        (some ⟨e.name,
          (computeReferencePocketList refM lig cutoff).length,
          (mapPocketResiduesToModel lib refM am
            (computeReferencePocketList refM lig cutoff)).pocket.card,
          ((computeReferencePocketList refM lig cutoff).length : Int)
            - ((mapPocketResiduesToModel lib refM am
                (computeReferencePocketList refM lig cutoff)).pocket.card : Int),
          (mapPocketResiduesToModel lib refM am
            (computeReferencePocketList refM lig cutoff)).unmapped.length⟩,
         modelWarnings e)

/-- The loop body of `process_finished_outputs` for one directory entry:
the only caught failure is the name-format `ValueError`; parse exceptions
surface as `Except.error`. -/
def processEntry (lib : AlignLib) (cutoff : ℚ) (e : DirEntry) :
    Except String (Option SummaryItem × List String) :=
  match splitUnderscore1 e.name with
  | none => .ok (none, [skipMsg e.name])
  | some pr =>
    match af3ParseResult e with
    | .error msg => .error msg
    | .ok af3 =>
      if e.hasRefProt && e.hasRefLig then
        match e.refParse with
        | .error msg => .error msg
        | .ok refM =>
          .ok (entryRefOutcome lib cutoff e af3 (normalizeLigand pr.2) refM)
      else .ok (none, modelWarnings e ++ [wRefMissing])

/-- `process_finished_outputs`: fold the loop body over the scanned
entries, skipping non-directories; an uncaught exception aborts the whole
batch (no further entry is processed). -/
def processFinishedOutputs (lib : AlignLib) (cutoff : ℚ) :
    List DirEntry → Except String (List SummaryItem × List String)
  | [] => .ok ([], [])
  | e :: rest =>
    if e.isDir then
      match processEntry lib cutoff e with
      | .error msg => .error msg
      | .ok (s, ws) =>
        match processFinishedOutputs lib cutoff rest with
        | .error msg => .error msg
        | .ok (srest, wrest) => .ok (s.toList ++ srest, ws ++ wrest)
    else processFinishedOutputs lib cutoff rest

/-! #### C1 and C2: failure propagation at the orchestration boundary -/

/-- The structure-file parses an entry needs do not raise: the model parse
succeeds whenever the model file exists, and the reference parse succeeds
whenever both reference files exist. -/
abbrev entryParsesOk (e : DirEntry) : Prop :=
  (e.hasModelFile = true → e.modelParse.isOk = true)
  ∧ ((e.hasRefProt && e.hasRefLig) = true → e.refParse.isOk = true)

theorem af3ParseResult_ok (e : DirEntry)
    (h : e.hasModelFile = true → e.modelParse.isOk = true) :
    ∃ v, af3ParseResult e = .ok v := by
  unfold af3ParseResult
  cases hm : e.hasModelFile with
  | false => exact ⟨none, by simp [hm]⟩
  | true =>
    have hok := h hm
    cases hp : e.modelParse with
    | error msg =>
      rw [hp] at hok
      exact absurd hok (by simp [Except.isOk, Except.toBool])
    | ok m => exact ⟨some m, by simp [hm, hp]⟩

theorem processEntry_isOk (lib : AlignLib) (cutoff : ℚ) (e : DirEntry)
    (h : entryParsesOk e) : ∃ out, processEntry lib cutoff e = .ok out := by
  unfold processEntry
  cases hs : splitUnderscore1 e.name with
  | none => exact ⟨_, rfl⟩
  | some pr =>
    obtain ⟨v, hv⟩ := af3ParseResult_ok e h.1
    simp only [hv]
    cases hrr : e.hasRefProt && e.hasRefLig with
    | false =>
      exact ⟨(none, modelWarnings e ++ [wRefMissing]), by simp [hrr]⟩
    | true =>
      have hro := h.2 hrr
      cases hp : e.refParse with
      | error msg =>
        rw [hp] at hro
        exact absurd hro (by simp [Except.isOk, Except.toBool])
      | ok refM =>
        exact ⟨(entryRefOutcome lib cutoff e v (normalizeLigand pr.2) refM),
          by simp [hrr, hp]⟩

/-- Alignment library for the C1 counterexample (never consulted). -/
def c1ExLib : AlignLib := ⟨fun _ _ => [], fun _ _ => 0⟩

/-- A well-named complex directory whose model coordinate file is
malformed: parsing it raises. -/
def c1BadEntry : DirEntry :=
  ⟨true, "1abc_LIG", true, .error "ParseError: malformed structure file",
   true, true, .ok ⟨[]⟩⟩

/-- A second, perfectly processable complex directory. -/
def c1NextEntry : DirEntry :=
  ⟨true, "2xyz_ATP", false, .ok ⟨[]⟩, false, false, .ok ⟨[]⟩⟩

/-- C1, counterexample: a malformed structure file in the first complex
makes the whole batch fail — the parse failure propagates out of the batch
loop (the batch result is the error, never an `ok` summary), even though
the second entry on its own would have been processed fine. -/
theorem c1_counterexample :
    processFinishedOutputs c1ExLib 5 [c1BadEntry, c1NextEntry]
      = .error "ParseError: malformed structure file"
    ∧ (∀ out, processFinishedOutputs c1ExLib 5 [c1BadEntry, c1NextEntry] ≠ .ok out)
    ∧ (∃ out, processFinishedOutputs c1ExLib 5 [c1NextEntry] = .ok out) := by
  have h1 : processFinishedOutputs c1ExLib 5 [c1BadEntry, c1NextEntry]
      = .error "ParseError: malformed structure file" := rfl
  refine ⟨h1, ?_, ⟨_, rfl⟩⟩
  intro out hc
  rw [h1] at hc
  exact Except.noConfusion hc

/-- C1, amended: the only failure the batch loop catches is the malformed
subdirectory name (`ValueError` from `split`), answered with a logged skip;
missing files, an absent ligand and an empty mapping are handled by
explicit checks and logged warnings; but a structure-file parse failure is
not caught — the batch completes exactly when every scanned directory's
parses succeed, and a parse exception aborts the whole batch. -/
theorem c1_amended :
    (∀ (lib : AlignLib) (cutoff : ℚ) (entries : List DirEntry),
        (∀ e ∈ entries, e.isDir = true → entryParsesOk e) →
        ∃ out, processFinishedOutputs lib cutoff entries = .ok out)
    ∧ (∀ (lib : AlignLib) (cutoff : ℚ) (e : DirEntry),
        splitUnderscore1 e.name = none →
        processEntry lib cutoff e = .ok (none, [skipMsg e.name])) := by
  constructor
  · intro lib cutoff entries
    induction entries with
    | nil => exact fun _ => ⟨_, rfl⟩
    | cons e rest ih =>
      intro hall
      obtain ⟨outs, houts⟩ := ih (fun x hx hd => hall x (List.mem_cons_of_mem _ hx) hd)
      cases hd : e.isDir with
      | false =>
        refine ⟨outs, ?_⟩
        simp only [processFinishedOutputs, hd, Bool.false_eq_true, if_false]
        exact houts
      | true =>
        obtain ⟨out1, hout1⟩ :=
          processEntry_isOk lib cutoff e (hall e (List.mem_cons_self _ _) hd)
        refine ⟨(out1.1.toList ++ outs.1, out1.2 ++ outs.2), ?_⟩
        simp only [processFinishedOutputs, hd, if_true]
        rw [hout1, houts]
  · intro lib cutoff e h
    unfold processEntry
    simp only [h]

/-- A well-formed, fully skippable directory entry for the C1 witness. -/
def c1WGood : DirEntry :=
  ⟨true, "3pqr_NAD", false, .ok ⟨[]⟩, false, false, .ok ⟨[]⟩⟩

/-- A directory entry with a malformed (underscore-free) name for the C1
witness. -/
def c1WBadName : DirEntry :=
  ⟨true, "badname", false, .ok ⟨[]⟩, true, true, .ok ⟨[]⟩⟩

/-- Witness for the amended C1: with all parses succeeding the batch
returns `ok`, and the malformed-name entry is skipped with the logged
message. -/
theorem c1_amended_witness :
    (∀ e ∈ [c1WGood, c1WBadName], e.isDir = true → entryParsesOk e)
    ∧ (∃ out, processFinishedOutputs c1ExLib 5 [c1WGood, c1WBadName] = .ok out)
    ∧ splitUnderscore1 c1WBadName.name = none
    ∧ processEntry c1ExLib 5 c1WBadName = .ok (none, [skipMsg c1WBadName.name]) :=
  ⟨by decide, c1_amended.1 c1ExLib 5 [c1WGood, c1WBadName] (by decide),
   by decide, c1_amended.2 c1ExLib 5 c1WBadName (by decide)⟩

theorem ligandAtoms_nil {m : Model} {lig : String}
    (h : ∀ r ∈ modelResidues m, r.resname ≠ lig) : ligandAtoms m lig = [] := by
  unfold ligandAtoms
  have hfil : (modelResidues m).filter (fun r => r.resname == lig) = [] := by
    rw [List.filter_eq_nil_iff]
    intro r hr
    simpa using h r hr
  rw [hfil]
  rfl

/-- C2: when no residue of the reference complex carries the target ligand
residue name, the Pocket Locator returns the empty pocket (both as a set
and as the enumerated list the orchestrator consumes), and the orchestrator
answers with `ok`: the complex is skipped (no summary record), the
empty-pocket/ligand-not-found warning is logged, and no exception reaches
the batch driver. -/
theorem c2_ligand_not_found (lib : AlignLib) (cutoff : ℚ) (e : DirEntry)
    (pdbid ligraw : String) (refM : Model)
    (hname : splitUnderscore1 e.name = some (pdbid, ligraw))
    (hmp : e.hasModelFile = true → e.modelParse.isOk = true)
    (hrp : e.hasRefProt = true) (hrl : e.hasRefLig = true)
    (href : e.refParse = Except.ok refM)
    (hlig : ∀ r ∈ modelResidues refM, r.resname ≠ normalizeLigand ligraw) :
    computeReferencePocket refM (normalizeLigand ligraw) cutoff = ∅
    ∧ computeReferencePocketList refM (normalizeLigand ligraw) cutoff = []
    ∧ processEntry lib cutoff e
        = .ok (none, modelWarnings e ++ [wEmptyPocket (normalizeLigand ligraw)])
    ∧ wEmptyPocket (normalizeLigand ligraw)
        ∈ modelWarnings e ++ [wEmptyPocket (normalizeLigand ligraw)] := by
  have hnil := ligandAtoms_nil hlig
  have hset : computeReferencePocket refM (normalizeLigand ligraw) cutoff = ∅ := by
    unfold computeReferencePocket
    rw [hnil]
    rfl
  have hlist : computeReferencePocketList refM (normalizeLigand ligraw) cutoff = [] := by
    unfold computeReferencePocketList
    rw [hnil]
    rfl
  refine ⟨hset, hlist, ?_, List.mem_append_right _ (List.mem_singleton.mpr rfl)⟩
  unfold processEntry
  simp only [hname]
  obtain ⟨v, hv⟩ := af3ParseResult_ok e hmp
  simp only [hv, hrp, hrl, Bool.and_self, if_true, href]
  unfold entryRefOutcome
  rw [if_pos hlist]

/-- Reference model for the C2 witness: one protein residue, no residue
named `XYZ`. -/
def c2WRef : Model := ⟨[⟨"A", [⟨"A", "ALA", 1, ' ', true, true, [⟨0, 0, 0⟩]⟩]⟩]⟩

/-- Directory entry for the C2 witness: well-formed name `1abc_XYZ`, both
reference files present and parsing to `c2WRef`, no model file. -/
def c2WEntry : DirEntry := ⟨true, "1abc_XYZ", false, .ok ⟨[]⟩, true, true, .ok c2WRef⟩

/-- Alignment library for the C2 witness (never consulted: the complex is
skipped before any alignment). -/
def c2WLib : AlignLib := ⟨fun _ _ => [], fun _ _ => 0⟩

/-- Witness for C2 at `c2WEntry`: ligand `XYZ` matches nothing, the pocket
is empty, and the entry is skipped with the warning. -/
theorem c2_ligand_not_found_witness :
    (splitUnderscore1 c2WEntry.name = some ("1abc", "XYZ")
      ∧ c2WEntry.hasRefProt = true ∧ c2WEntry.hasRefLig = true
      ∧ c2WEntry.refParse = Except.ok c2WRef
      ∧ (∀ r ∈ modelResidues c2WRef, r.resname ≠ normalizeLigand "XYZ"))
    ∧ computeReferencePocket c2WRef (normalizeLigand "XYZ") 5 = ∅
    ∧ processEntry c2WLib 5 c2WEntry
        = .ok (none, modelWarnings c2WEntry ++ [wEmptyPocket (normalizeLigand "XYZ")]) := by
  have h := c2_ligand_not_found c2WLib 5 c2WEntry "1abc" "XYZ" c2WRef
    (by decide) (by decide) (by decide) (by decide) rfl (by decide)
  exact ⟨⟨by decide, by decide, by decide, rfl, by decide⟩, h.1, h.2.2.1⟩

end BenchAF3
